import Mathlib

/-!
# M3L compiler front-end: shallow embedding and verification

This file embeds the core pipeline of the M3L schema-modeling compiler
(crates/m3l-core: lexer.rs, parser.rs, resolver.rs, types.rs, catalogs.rs)
as executable Lean definitions, and proves properties of the embedded code.

Modelling conventions:
- Rust `f64` values are modelled by their source text (`F64 := String`):
  the embedded code paths never perform arithmetic on them, they only
  classify strings as parseable-or-not and carry the value along.
- Rust `HashMap`/`HashSet` are modelled as association lists / lists with
  HashMap insert-overwrite semantics (`hmInsert` keeps the latest binding).
  Where the Rust code iterates a HashMap in arbitrary order, the embedding
  iterates in insertion order; no theorem below depends on that order
  beyond what the source guarantees deterministically.
- Rust byte indexing is modelled by `Array Char` indexing; all inputs in
  scope are ASCII, where the two coincide.
-/

set_option maxHeartbeats 2000000
set_option maxRecDepth 10000
set_option synthInstance.maxHeartbeats 1000000

namespace M3l

/-- Rust `f64` values, modelled by their source text (no arithmetic is
performed on them in the embedded code paths). -/
abbrev F64 := String

/-- serde_json::Value. -/
inductive Json where
  | null : Json
  | bool : Bool → Json
  | num : F64 → Json
  | str : String → Json
  | arr : List Json → Json
  | obj : List (String × Json) → Json
deriving Inhabited

/-- HashMap insert: overwrite an existing binding for the key, else append
(the embedding keeps insertion order for iteration). -/
def hmInsert (m : List (String × α)) (k : String) (v : α) : List (String × α) :=
  if m.any (fun p => p.1 = k) then
    m.map (fun p => if p.1 = k then (k, v) else p)
  else
    m ++ [(k, v)]

/-- HashMap get. -/
def hmGet (m : List (String × α)) (k : String) : Option α :=
  (m.find? (fun p => p.1 = k)).map (·.2)

/-- HashMap contains_key. -/
def hmContains (m : List (String × α)) (k : String) : Bool :=
  m.any (fun p => p.1 = k)

-- ---------------------------------------------------------------------------
-- catalogs.rs
-- ---------------------------------------------------------------------------

/-- catalogs.rs TYPE_CATALOG (22 names). -/
def TYPE_CATALOG : List String :=
  ["string", "text", "integer", "long", "decimal", "float", "boolean",
   "date", "time", "timestamp", "identifier", "binary",
   "email", "phone", "url", "money", "percentage",
   "object", "json", "enum", "map", "datetime"]

/-- catalogs.rs STANDARD_ATTRIBUTES (31 names). -/
def STANDARD_ATTRIBUTES : List String :=
  ["primary", "unique", "required", "index", "generated", "immutable",
   "reference", "fk", "relation", "on_update", "on_delete",
   "searchable", "description", "visibility",
   "min", "max", "validate", "not_null",
   "computed", "computed_raw", "lookup", "rollup", "from", "persisted",
   "public", "private", "materialized", "meta", "behavior", "override",
   "default_attribute"]

/-- catalogs.rs KIND_SECTIONS. -/
def KIND_SECTIONS : List String :=
  ["Lookup", "Rollup", "Computed", "Computed from Rollup"]

/-- catalogs.rs PARSER_VERSION. -/
def PARSER_VERSION : String := "0.4.0"

/-- catalogs.rs AST_VERSION. -/
def AST_VERSION : String := "1.0"

-- ---------------------------------------------------------------------------
-- types.rs : token and AST data model
-- ---------------------------------------------------------------------------

/-- types.rs SourceLocation. -/
structure SourceLocation where
  file : String
  line : Nat
  col : Nat
deriving DecidableEq, Inhabited

/-- types.rs TokenType. -/
inductive TokenType where
  | Namespace | Model | Enum | Interface | View | AttributeDef
  | Section | Field | NestedItem | Blockquote | HorizontalRule | Blank | Text
deriving DecidableEq, Inhabited

/-- types.rs AttrArgValue (untagged union string | f64 | bool). -/
inductive AttrArgValue where
  | str : String → AttrArgValue
  | num : F64 → AttrArgValue
  | bool : Bool → AttrArgValue
deriving DecidableEq, Inhabited

/-- types.rs ParamValue (untagged union string | f64). -/
inductive ParamValue where
  | str : String → ParamValue
  | num : F64 → ParamValue
deriving DecidableEq, Inhabited

/-- types.rs RawAttribute. -/
structure RawAttribute where
  name : String
  args : List AttrArgValue
  cascade : Option String
deriving DecidableEq, Inhabited

/-- types.rs CodeBlock. -/
structure CodeBlock where
  language : Option String
  content : String
deriving DecidableEq, Inhabited

/-- types.rs TokenData (typed bag of decoded fields). -/
structure TokenData where
  name : Option String := none
  label : Option String := none
  description : Option String := none
  comment : Option String := none
  inherits : List String := []
  attributes : List RawAttribute := []
  materialized : Option Bool := none
  type_name : Option String := none
  type_params : List ParamValue := []
  type_generic_params : List String := []
  nullable : Bool := false
  array : Bool := false
  array_item_nullable : Bool := false
  default_value : Option String := none
  is_directive : Bool := false
  is_import : Bool := false
  import_path : Option String := none
  framework_attrs : List String := []
  blockquote_desc : Option String := none
  enum_value_description : Option String := none
  kind_section : Bool := false
  code_block : Option CodeBlock := none
  key : Option String := none
  value : Option String := none
deriving DecidableEq, Inhabited

/-- types.rs Token. -/
structure Token where
  token_type : TokenType
  raw : String
  line : Nat
  indent : Nat
  data : TokenData
deriving DecidableEq, Inhabited

/-- types.rs FieldKind (serde lowercase). -/
inductive FieldKind where
  | stored | computed | lookup | rollup
deriving DecidableEq, Inhabited

/-- types.rs FieldAttribute (resolved attribute). -/
structure FieldAttribute where
  name : String
  args : Option (List AttrArgValue)
  cascade : Option String
  is_standard : Option Bool
  is_registered : Option Bool
deriving DecidableEq, Inhabited

/-- types.rs CustomAttributeParsed. -/
structure CustomAttributeParsed where
  name : String
  arguments : List AttrArgValue
deriving DecidableEq, Inhabited

/-- types.rs CustomAttribute. -/
structure CustomAttribute where
  content : String
  raw : String
  parsed : Option CustomAttributeParsed
deriving DecidableEq, Inhabited

/-- types.rs EnumValue (`value` is a captured JSON scalar). -/
structure EnumValue where
  name : String
  description : Option String
  value_type : Option String
  value : Option Json
deriving Inhabited

/-- types.rs LookupDef. -/
structure LookupDef where
  path : String
deriving DecidableEq, Inhabited

/-- types.rs RollupDef. -/
structure RollupDef where
  target : String
  fk : String
  aggregate : String
  field : Option String
  where_clause : Option String
deriving DecidableEq, Inhabited

/-- types.rs ComputedDef. -/
structure ComputedDef where
  expression : String
  platform : Option String
deriving DecidableEq, Inhabited

/-- types.rs DefaultValueType (serde lowercase). -/
inductive DefaultValueType where
  | literal | expression
deriving DecidableEq, Inhabited

/-- The non-recursive part of types.rs FieldNode (all fields except the
nested `fields` list, which lives on the `FieldNode` inductive because Lean
structures cannot recurse). -/
structure FieldData where
  name : String
  label : Option String
  field_type : Option String
  params : Option (List ParamValue)
  generic_params : Option (List String)
  nullable : Bool
  array : Bool
  array_item_nullable : Bool
  kind : FieldKind
  default_value : Option String
  default_value_type : Option DefaultValueType
  description : Option String
  attributes : List FieldAttribute
  framework_attrs : Option (List CustomAttribute)
  lookup : Option LookupDef
  rollup : Option RollupDef
  computed : Option ComputedDef
  enum_values : Option (List EnumValue)
deriving Inhabited

/-- types.rs FieldNode: FieldData plus the optional nested sub-field list
and the source location. -/
inductive FieldNode where
  | mk : FieldData → Option (List FieldNode) → SourceLocation → FieldNode

instance : Inhabited FieldNode := ⟨.mk default none default⟩

def FieldNode.data : FieldNode → FieldData
  | .mk d _ _ => d

def FieldNode.fields : FieldNode → Option (List FieldNode)
  | .mk _ fs _ => fs

def FieldNode.loc : FieldNode → SourceLocation
  | .mk _ _ l => l

def FieldNode.name (f : FieldNode) : String := f.data.name
def FieldNode.kind (f : FieldNode) : FieldKind := f.data.kind
def FieldNode.lookup (f : FieldNode) : Option LookupDef := f.data.lookup
def FieldNode.rollup (f : FieldNode) : Option RollupDef := f.data.rollup
def FieldNode.computed (f : FieldNode) : Option ComputedDef := f.data.computed
def FieldNode.attributes (f : FieldNode) : List FieldAttribute := f.data.attributes
def FieldNode.field_type (f : FieldNode) : Option String := f.data.field_type

def FieldNode.withData (f : FieldNode) (g : FieldData → FieldData) : FieldNode :=
  .mk (g f.data) f.fields f.loc

def FieldNode.withFields (f : FieldNode) (fs : Option (List FieldNode)) : FieldNode :=
  .mk f.data fs f.loc

/-- types.rs ModelType (serde lowercase). -/
inductive ModelType where
  | model | enum | interface | view
deriving DecidableEq, Inhabited

/-- types.rs JoinDef. -/
structure JoinDef where
  model : String
  on_ : String
deriving DecidableEq, Inhabited

/-- types.rs ViewSourceDef. -/
structure ViewSourceDef where
  from_ : Option String
  joins : Option (List JoinDef)
  where_clause : Option String
  order_by : Option String
  group_by : Option (List String)
  raw_sql : Option String
  language_hint : Option String
deriving DecidableEq, Inhabited

/-- types.rs RefreshDef. -/
structure RefreshDef where
  strategy : String
  interval : Option String
deriving DecidableEq, Inhabited

/-- types.rs Sections (indexes/relations/behaviors/metadata plus flattened
custom buckets; the two maps are HashMaps modelled as assoc lists). -/
structure Sections where
  indexes : List Json := []
  relations : List Json := []
  behaviors : List Json := []
  metadata : List (String × Json) := []
  custom : List (String × Json) := []
deriving Inhabited

/-- types.rs ModelNode. -/
structure ModelNode where
  name : String
  label : Option String
  model_type : ModelType
  source : String
  line : Nat
  inherits : List String
  description : Option String
  attributes : List FieldAttribute
  fields : List FieldNode
  sections : Sections
  materialized : Option Bool
  source_def : Option ViewSourceDef
  refresh : Option RefreshDef
  loc : SourceLocation
deriving Inhabited

/-- types.rs EnumNode. -/
structure EnumNode where
  name : String
  label : Option String
  enum_type : ModelType
  source : String
  line : Nat
  inherits : List String
  description : Option String
  values : List EnumValue
  loc : SourceLocation
deriving Inhabited

/-- types.rs ProjectInfo. -/
structure ProjectInfo where
  name : Option String
  version : Option String
deriving DecidableEq, Inhabited

/-- types.rs DiagnosticSeverity (serde lowercase). -/
inductive DiagnosticSeverity where
  | error | warning
deriving DecidableEq, Inhabited

/-- types.rs Diagnostic. -/
structure Diagnostic where
  code : String
  severity : DiagnosticSeverity
  file : String
  line : Nat
  col : Nat
  message : String
deriving DecidableEq, Inhabited

/-- types.rs AttributeRegistryEntry. -/
structure AttributeRegistryEntry where
  name : String
  description : Option String
  target : List String
  attr_type : String
  range : Option (F64 × F64)
  required : Bool
  default_value : Option AttrArgValue
deriving DecidableEq, Inhabited

/-- types.rs ParsedFile. -/
structure ParsedFile where
  source : String
  namespace_ : Option String
  models : List ModelNode
  enums : List EnumNode
  interfaces : List ModelNode
  views : List ModelNode
  attribute_registry : List AttributeRegistryEntry
  imports : List String
deriving Inhabited

/-- types.rs M3lAst. -/
structure M3lAst where
  parser_version : String
  ast_version : String
  project : ProjectInfo
  sources : List String
  models : List ModelNode
  enums : List EnumNode
  interfaces : List ModelNode
  views : List ModelNode
  attribute_registry : List AttributeRegistryEntry
  errors : List Diagnostic
  warnings : List Diagnostic
deriving Inhabited

end M3l

namespace M3l

-- ---------------------------------------------------------------------------
-- lexer.rs : character utilities
-- ---------------------------------------------------------------------------

/-- Rust `char::is_whitespace` / regex `\s`, restricted to the ASCII range
used by M3L sources. -/
def isWS (c : Char) : Bool :=
  c = ' ' || c = '\t' || c = '\r' || c = '\n' || c = '\x0b' || c = '\x0c'

/-- lexer.rs `is_word_char` (also regex `\w` on ASCII). -/
def is_word_char (c : Char) : Bool :=
  c.isAlphanum || c = '_'

/-- Rust `str::trim_start` on a char list. -/
def trimStartCs (l : List Char) : List Char := l.dropWhile isWS

/-- Rust `str::trim_end` on a char list. -/
def trimEndCs (l : List Char) : List Char := (l.reverse.dropWhile isWS).reverse

/-- Rust `str::trim` on a char list. -/
def trimCs (l : List Char) : List Char := trimEndCs (trimStartCs l)

def trimS (s : String) : String := ⟨trimCs s.data⟩

/-- Rust `str::strip_suffix('\r')`-then-keep semantics used on every raw line. -/
def stripCr (l : List Char) : List Char :=
  if l ≠ [] ∧ l.getLast! = '\r' then l.dropLast else l

/-- Whether `pre` is a prefix of `l`. -/
def hasPfx (l pre : List Char) : Bool := List.isPrefixOf pre l

/-- Rust `str::trim_start_matches(pat)`: repeatedly strip the prefix. -/
def trimStartMatches (l pat : List Char) (fuel : Nat) : List Char :=
  match fuel with
  | 0 => l
  | fuel + 1 =>
    if pat ≠ [] ∧ hasPfx l pat then trimStartMatches (l.drop pat.length) pat fuel else l

/-- Rust `str::find(char)` on a char list (index of first occurrence). -/
def findIdx (l : List Char) (c : Char) : Option Nat :=
  l.findIdx? (· = c)

/-- Rust i64 digits bound: whether a digit string (no sign) fits in i64 given
the sign. Used by `str::parse::<i64>()`. -/
def digitsFitI64 (neg : Bool) (ds : List Char) : Bool :=
  let v := ds.foldl (fun a c => a * 10 + (c.toNat - '0'.toNat)) 0
  if neg then v ≤ 9223372036854775808 else v ≤ 9223372036854775807

/-- Rust `str::parse::<i64>()` success predicate. -/
def isI64String (l : List Char) : Bool :=
  let (neg, ds) :=
    match l with
    | '-' :: rest => (true, rest)
    | '+' :: rest => (false, rest)
    | _ => (false, l)
  ds ≠ [] && ds.all Char.isDigit && digitsFitI64 neg ds

/-- Rust `str::parse::<f64>()` success predicate.  Grammar (std docs):
`Sign? ( 'inf' | 'infinity' | 'nan' | Number )` with
`Number ::= Digit+ | Digit+ '.' Digit* | Digit* '.' Digit+`, optionally
followed by `('e'|'E') Sign? Digit+`; `inf`/`infinity`/`nan` are
case-insensitive. -/
def isF64String (l : List Char) : Bool :=
  let body :=
    match l with
    | '-' :: rest => rest
    | '+' :: rest => rest
    | _ => l
  let low := body.map Char.toLower
  if low = "inf".data || low = "infinity".data || low = "nan".data then true
  else
    let mantOk : List Char → Bool := fun m =>
      let intPart := m.takeWhile Char.isDigit
      let rest := m.dropWhile Char.isDigit
      match rest with
      | [] => intPart ≠ []
      | '.' :: frac => (intPart ≠ [] || frac ≠ []) && frac.all Char.isDigit
      | _ => false
    let mant := body.takeWhile (fun c => c ≠ 'e' && c ≠ 'E')
    let expPart := body.dropWhile (fun c => c ≠ 'e' && c ≠ 'E')
    match expPart with
    | [] => mantOk mant
    | _ :: e =>
      let eds :=
        match e with
        | '-' :: rest => rest
        | '+' :: rest => rest
        | _ => e
      mantOk mant && eds ≠ [] && eds.all Char.isDigit

-- ---------------------------------------------------------------------------
-- lexer.rs : regex mirrors.  Each function reproduces the observable
-- behaviour (match / capture groups) of the corresponding regex constant
-- from lexer.rs / parser.rs on line-shaped (newline-free, ASCII) input.
-- ---------------------------------------------------------------------------

/-- RE_BLANK `^\s*$`. -/
def re_blank (l : List Char) : Bool := l.all isWS

/-- RE_HR `^-{3,}$` (applied to the trimmed line). -/
def re_hr (l : List Char) : Bool := l.length ≥ 3 && l.all (· = '-')

/-- RE_H1 `^# (.+)$` (and the analogous RE_H2/RE_H3): returns the capture. -/
def re_heading (marker : List Char) (l : List Char) : Option (List Char) :=
  if hasPfx l marker then
    let rest := l.drop marker.length
    if rest ≠ [] then some rest else none
  else none

/-- RE_BLOCKQUOTE `^(\s*)> (.+)$`: returns (indent, text capture). -/
def re_blockquote (l : List Char) : Option (Nat × List Char) :=
  let ws := l.takeWhile isWS
  let rest := l.drop ws.length
  if hasPfx rest "> ".data then
    let body := rest.drop 2
    if body ≠ [] then some (ws.length, body) else none
  else none

/-- RE_LIST_ITEM `^(\s*)- (.+)$`: returns (indent, content capture). -/
def re_list_item (l : List Char) : Option (Nat × List Char) :=
  let ws := l.takeWhile isWS
  let rest := l.drop ws.length
  if hasPfx rest "- ".data then
    let body := rest.drop 2
    if body ≠ [] then some (ws.length, body) else none
  else none

/-- RE_IMPORT `^@import\s+["'](.+?)["']\s*$` (applied to the trimmed line):
returns the lazily-captured path. -/
def re_import (l : List Char) : Option (List Char) :=
  if hasPfx l "@import".data then
    let rest := l.drop 7
    let ws := rest.takeWhile isWS
    if ws = [] then none
    else
      let after := rest.drop ws.length
      match after with
      | q :: body =>
        if q = '"' || q = '\'' then
          -- lazy capture: smallest nonempty prefix whose terminator is a
          -- quote followed only by whitespace
          let rec go (pre : List Char) (suf : List Char) : Option (List Char) :=
            match suf with
            | [] => none
            | c :: suf' =>
              let pre' := pre ++ [c]
              match suf' with
              | q2 :: tail =>
                if (q2 = '"' || q2 = '\'') && tail.all isWS then some pre'
                else go pre' suf'
              | [] => none
          go [] body
        else none
      | [] => none
  else none

/-- RE_NAMESPACE `^Namespace:\s*(.+)$` plus the `.trim()` the caller applies:
returns the trimmed namespace name if the heading matches. -/
def re_namespace (l : List Char) : Option (List Char) :=
  if hasPfx l "Namespace:".data then
    let rest := l.drop 10
    if rest ≠ [] then some (trimCs rest) else none
  else none

/-- RE_NAME_LABEL `^([\w][\w.]*)\(([^)]*)\)$`: returns (name, label). -/
def re_name_label (l : List Char) : Option (List Char × List Char) :=
  match l with
  | c :: _ =>
    if is_word_char c then
      let name := l.takeWhile (fun c => is_word_char c || c = '.')
      let rest := l.drop name.length
      match rest with
      | '(' :: inner =>
        match inner.reverse with
        | ')' :: revBody =>
          let body := revBody.reverse
          if body.all (· ≠ ')') then some (name, body) else none
        | _ => none
      | _ => none
    else none
  | [] => none

/-- RE_NESTED_KV `^([\w]+)\s*:\s*(.+)$`: returns (key, raw value capture);
the caller trims the value. -/
def re_nested_kv (l : List Char) : Option (List Char × List Char) :=
  let key := l.takeWhile is_word_char
  if key = [] then none
  else
    let rest := (l.drop key.length).dropWhile isWS
    match rest with
    | ':' :: v => if v ≠ [] then some (key, v) else none
    | _ => none

/-- RE_QUOTE_STR `^"(.*)"$`: returns the capture. -/
def re_quote_str (l : List Char) : Option (List Char) :=
  match l with
  | '"' :: rest =>
    match rest.reverse with
    | '"' :: revBody => some revBody.reverse
    | _ => none
  | _ => none

/-- RE_AGG `^(\w+)(?:\((\w+)\))?$`: returns (name, optional field). -/
def re_agg (l : List Char) : Option (List Char × Option (List Char)) :=
  let name := l.takeWhile is_word_char
  if name = [] then none
  else
    match l.drop name.length with
    | [] => some (name, none)
    | '(' :: rest =>
      let fld := rest.takeWhile is_word_char
      if fld ≠ [] && rest.drop fld.length = [')'] then some (name, some fld) else none
    | _ => none

/-- RE_WHERE `^where:\s*"(.*)"$`: returns the capture. -/
def re_where (l : List Char) : Option (List Char) :=
  if hasPfx l "where:".data then
    let rest := (l.drop 6).dropWhile isWS
    match rest with
    | '"' :: body =>
      match body.reverse with
      | '"' :: revInner => some revInner.reverse
      | _ => none
    | _ => none
  else none

/-- RE_CUSTOM_ATTR `^([A-Za-z_][\w.]*)(?:\((.+)\))?$`: returns
(name, optional args capture). -/
def re_custom_attr (l : List Char) : Option (List Char × Option (List Char)) :=
  match l with
  | c :: _ =>
    if c.isAlpha || c = '_' then
      let name := l.takeWhile (fun c => is_word_char c || c = '.')
      match l.drop name.length with
      | [] => some (name, none)
      | '(' :: rest =>
        match rest.reverse with
        | ')' :: revBody =>
          if revBody ≠ [] then some (name, some revBody.reverse) else none
        | _ => none
      | _ => none
    else none
  | [] => none

/-- RE_PLATFORM `platform\s*:\s*["']?([^"'\s]+)["']?` (unanchored search):
returns the capture of the leftmost match. -/
def re_platform (l : List Char) : Option (List Char) :=
  let tryAt : List Char → Option (List Char) := fun s =>
    if hasPfx s "platform".data then
      let r1 := (s.drop 8).dropWhile isWS
      match r1 with
      | ':' :: r2 =>
        let r3 := r2.dropWhile isWS
        let capture : List Char → Option (List Char) := fun t =>
          let cap := t.takeWhile (fun c => c ≠ '"' && c ≠ '\'' && !isWS c)
          if cap ≠ [] then some cap else none
        match r3 with
        | q :: r4 =>
          if q = '"' || q = '\'' then
            match capture r4 with
            | some cap => some cap
            | none => capture r3
          else capture r3
        | [] => none
      | _ => none
    else none
  let rec go : List Char → Option (List Char)
    | [] => none
    | c :: rest =>
      match tryAt (c :: rest) with
      | some cap => some cap
      | none => go rest
  go l

/-- RE_INLINE_COMMENT `\s+#\s+(.+)$` (leftmost unanchored match): returns
(content before the match, comment capture). -/
def re_inline_comment (l : List Char) : Option (List Char × List Char) :=
  let matchAt : List Char → Option (List Char) := fun s =>
    -- s starts at a candidate `\s+` position
    match s with
    | c :: _ =>
      if isWS c then
        let ws := s.takeWhile isWS
        match s.drop ws.length with
        | '#' :: after =>
          -- after must be `\s+(.+)` : at least one ws then at least one char
          match after with
          | a :: _ =>
            if isWS a && after.length ≥ 2 then
              let w2 := after.takeWhile isWS
              let rest := after.drop w2.length
              if rest ≠ [] then some rest else some [after.getLast!]
            else none
          | [] => none
        | _ => none
      else none
    | [] => none
  let rec go (pre : List Char) (suf : List Char) : Option (List Char × List Char) :=
    match suf with
    | [] => none
    | c :: rest =>
      match matchAt (c :: rest) with
      | some cap => some (pre, cap)
      | none => go (pre ++ [c]) rest
  go [] l

/-- RE_FRAMEWORK_ATTR `` `\[([^\]]+)\]` `` via `captures_iter` +
`replace_all`: returns (list of captures, content with matches removed). -/
def re_framework_attrs (l : List Char) : List (List Char) × List Char :=
  let matchAt : List Char → Option (List Char × List Char) := fun s =>
    match s with
    | '`' :: '[' :: rest =>
      let body := rest.takeWhile (· ≠ ']')
      if body = [] then none
      else
        match rest.drop body.length with
        | ']' :: '`' :: tail => some (body, tail)
        | _ => none
    | _ => none
  let rec go (fuel : Nat) (s : List Char) : List (List Char) × List Char :=
    match fuel, s with
    | 0, s => ([], s)
    | _, [] => ([], [])
    | fuel + 1, c :: rest =>
      match matchAt (c :: rest) with
      | some (body, tail) =>
        let (caps, out) := go fuel tail
        (body :: caps, out)
      | none =>
        let (caps, out) := go fuel rest
        (caps, c :: out)
  go l.length l

/-- RE_MODEL_ATTR `@([\w]+)(?:\(([^)]*)\))?` via `captures_iter`: returns
the list of (name, optional args capture). -/
def re_model_attrs (l : List Char) : List (List Char × Option (List Char)) :=
  let matchAt : List Char → Option ((List Char × Option (List Char)) × List Char) := fun s =>
    match s with
    | '@' :: rest =>
      let name := rest.takeWhile is_word_char
      if name = [] then none
      else
        match rest.drop name.length with
        | '(' :: r2 =>
          let body := r2.takeWhile (· ≠ ')')
          match r2.drop body.length with
          | ')' :: tail => some ((name, some body), tail)
          | _ => some ((name, none), rest.drop name.length)
        | _ => some ((name, none), rest.drop name.length)
    | _ => none
  let rec go (fuel : Nat) (s : List Char) : List (List Char × Option (List Char)) :=
    match fuel, s with
    | 0, _ => []
    | _, [] => []
    | fuel + 1, c :: rest =>
      match matchAt (c :: rest) with
      | some (m, tail) => m :: go fuel tail
      | none => go fuel rest
  go l.length l

/-- RE_H2_DESC `"([^"]+)"` (leftmost match): returns the capture. -/
def re_h2_desc (l : List Char) : Option (List Char) :=
  let rec go : List Char → Option (List Char)
    | [] => none
    | '"' :: rest =>
      let body := rest.takeWhile (· ≠ '"')
      if body ≠ [] && rest.drop body.length ≠ [] then some body
      else go rest
    | _ :: rest => go rest
  go l

end M3l

namespace M3l

-- ---------------------------------------------------------------------------
-- lexer.rs : hand-rolled scanners (ported with cursor + fuel; every loop
-- advances the cursor, so `size + 1` fuel makes the fuel branch unreachable)
-- ---------------------------------------------------------------------------

/-- The backtick character (written via its code point). -/
def backtickChar : Char := Char.ofNat 96

/-- Character at index `i` (inputs guard `i < size` as the Rust code does). -/
def at_ (s : Array Char) (i : Nat) : Char := s.getD i '\x00'

/-- Substring `s[a..b]` as a string. -/
def sub (s : Array Char) (a b : Nat) : String := ⟨(s.extract a b).toList⟩

/-- Rust `s[start..].find(c)` relative to the whole array: absolute index of
the first occurrence of `c` at or after `start`. -/
def findFrom (s : Array Char) (c : Char) (start : Nat) : Option Nat :=
  let rec go (fuel : Nat) (i : Nat) : Option Nat :=
    match fuel with
    | 0 => none
    | fuel + 1 =>
      if i < s.size then
        if at_ s i = c then some i else go fuel (i + 1)
      else none
  go (s.size + 1) start

/-- lexer.rs `find_closing_quote`. -/
def find_closing_quote (s : Array Char) (openPos : Nat) : Option Nat :=
  let rec go (fuel : Nat) (i : Nat) : Option Nat :=
    match fuel with
    | 0 => none
    | fuel + 1 =>
      if i < s.size then
        if at_ s i = '\\' then go fuel (i + 2)
        else if at_ s i = '"' then some i
        else go fuel (i + 1)
      else none
  go (s.size + 1) (openPos + 1)

/-- lexer.rs `find_closing_backtick`. -/
def find_closing_backtick (s : Array Char) (openPos : Nat) : Option Nat :=
  let rec go (fuel : Nat) (i : Nat) : Option Nat :=
    match fuel with
    | 0 => none
    | fuel + 1 =>
      if i < s.size then
        if at_ s i = '\\' then go fuel (i + 2)
        else if at_ s i = backtickChar then some i
        else go fuel (i + 1)
      else none
  go (s.size + 1) (openPos + 1)

/-- lexer.rs `find_balanced_paren` (depth is an i32 in Rust, hence `Int`). -/
def find_balanced_paren (s : Array Char) (openPos : Nat) : Option Nat :=
  let rec go (fuel : Nat) (i : Nat) (depth : Int) : Option Nat :=
    match fuel with
    | 0 => none
    | fuel + 1 =>
      if i < s.size then
        let c := at_ s i
        if c = '(' then go fuel (i + 1) (depth + 1)
        else if c = ')' then
          if depth - 1 = 0 then some i else go fuel (i + 1) (depth - 1)
        else if c = '"' then
          match find_closing_quote s i with
          | some closeQ => go fuel (closeQ + 1) depth
          | none => go fuel (i + 1) depth
        else if c = '\'' then
          match findFrom s '\'' (i + 1) with
          | some closeQ => go fuel (closeQ + 1) depth
          | none => go fuel (i + 1) depth
        else if c = backtickChar then
          match find_closing_backtick s i with
          | some closeQ => go fuel (closeQ + 1) depth
          | none => go fuel (i + 1) depth
        else go fuel (i + 1) depth
      else none
  go (s.size + 1) openPos 0

/-- Rust `str::trim_matches('"')`: strip every leading and trailing `"`. -/
def trimMatchesQuote (l : List Char) : List Char :=
  ((l.dropWhile (· = '"')).reverse.dropWhile (· = '"')).reverse

/-- lexer.rs `parse_attr_args_string`: classify one unquoted token. -/
def classifyArgToken (token : List Char) : AttrArgValue :=
  match findIdx token ':' with
  | some colonPos =>
    let key := trimCs (token.take colonPos)
    let val := trimMatchesQuote (trimCs (token.drop (colonPos + 1)))
    .str (⟨key⟩ ++ ": " ++ ⟨val⟩)
  | none =>
    if token = "true".data then .bool true
    else if token = "false".data then .bool false
    else if isF64String token then .num ⟨token⟩
    else .str ⟨token⟩

/-- lexer.rs `parse_attr_args_string`. -/
def parse_attr_args_string (str : String) : List AttrArgValue :=
  let s := str.data.toArray
  let len := s.size
  let rec go (fuel : Nat) (pos : Nat) (args : List AttrArgValue) : List AttrArgValue :=
    match fuel with
    | 0 => args
    | fuel + 1 =>
      -- skip whitespace and commas (Rust checks b' ' and b',')
      let rec skip (f : Nat) (p : Nat) : Nat :=
        match f with
        | 0 => p
        | f + 1 => if p < len && (at_ s p = ' ' || at_ s p = ',') then skip f (p + 1) else p
      let pos := skip (len + 1) pos
      if pos < len then
        if at_ s pos = '"' then
          match find_closing_quote s pos with
          | some close => go fuel (close + 1) (args ++ [.str (sub s (pos + 1) close)])
          | none => go fuel (pos + 1) args
        else if at_ s pos = backtickChar then
          match find_closing_backtick s pos with
          | some close => go fuel (close + 1) (args ++ [.str (sub s pos (close + 1))])
          | none => go fuel (pos + 1) args
        else if at_ s pos = '\'' then
          -- Rust: `pos = pos + 2 + close` with `close` relative to `pos + 1`,
          -- i.e. one past the absolute index of the closing quote
          match findFrom s '\'' (pos + 1) with
          | some close => go fuel (close + 1) (args ++ [.str (sub s (pos + 1) close)])
          | none => go fuel (pos + 1) args
        else
          -- unquoted: read until top-level comma
          let rec scan (f : Nat) (p : Nat) : Nat :=
            match f with
            | 0 => p
            | f + 1 =>
              if p < len && at_ s p ≠ ',' then
                if at_ s p = '(' then
                  match find_balanced_paren s p with
                  | some closeP => scan f (closeP + 1)
                  | none => scan f (p + 1)
                else scan f (p + 1)
              else p
          let stop := scan (len + 1) pos
          let token := trimCs (sub s pos stop).data
          if token ≠ [] then go fuel stop (args ++ [classifyArgToken token])
          else go fuel stop args
      else args
  go (len + 1) 0 []

end M3l

namespace M3l

/-- Count of characters satisfying `p` starting at `start` (Rust-style run). -/
def countWhile (s : Array Char) (start : Nat) (p : Char → Bool) : Nat :=
  let rec go (fuel : Nat) (i : Nat) (acc : Nat) : Nat :=
    match fuel with
    | 0 => acc
    | fuel + 1 => if i < s.size && p (at_ s i) then go fuel (i + 1) (acc + 1) else acc
  go (s.size + 1) start 0

/-- Rust `skip_ws` from lexer.rs `parse_type_and_attrs` (skips `b' '` only). -/
def skipSpaces (s : Array Char) (pos : Nat) : Nat :=
  pos + countWhile s pos (· = ' ')

/-- RE_TYPE_PART `^([\w][\w.]*)(?:<([^>]+)>)?(?:\(([^)]*)\))?(\?)?(\[\])?(\?)?`
(prefix match): returns (type name, generic capture, params capture,
group-4 `?`, group-5 `[]`, group-6 `?`, length of the whole match). -/
def re_type_part (s : Array Char) :
    Option (String × Option String × Option String × Bool × Bool × Bool × Nat) :=
  if s.size > 0 && is_word_char (at_ s 0) then
    let nameLen := countWhile s 0 (fun c => is_word_char c || c = '.')
    let name := sub s 0 nameLen
    let pos := nameLen
    -- optional <generics> : `[^>]+` up to the first `>`
    let (gen, pos) :=
      if at_ s pos = '<' && pos < s.size then
        let gl := countWhile s (pos + 1) (· ≠ '>')
        if gl ≥ 1 && pos + 1 + gl < s.size then
          (some (sub s (pos + 1) (pos + 1 + gl)), pos + 1 + gl + 1)
        else (none, pos)
      else (none, pos)
    -- optional (params) : `[^)]*` up to the first `)`
    let (par, pos) :=
      if at_ s pos = '(' && pos < s.size then
        let pl := countWhile s (pos + 1) (· ≠ ')')
        if pos + 1 + pl < s.size then
          (some (sub s (pos + 1) (pos + 1 + pl)), pos + 1 + pl + 1)
        else (none, pos)
      else (none, pos)
    let (q4, pos) := if pos < s.size && at_ s pos = '?' then (true, pos + 1) else (false, pos)
    let (arr, pos) :=
      if pos + 1 < s.size + 1 && pos + 1 ≤ s.size && at_ s pos = '[' && at_ s (pos + 1) = ']' then
        (true, pos + 2)
      else (false, pos)
    let (q6, pos) := if pos < s.size && at_ s pos = '?' then (true, pos + 1) else (false, pos)
    some (name, gen, par, q4, arr, q6, pos)
  else none

/-- Split a char list on a separator char (Rust `str::split(c)`: an empty
input yields one empty piece). -/
def splitChar (l : List Char) (c : Char) : List (List Char) :=
  let rec go (cur : List Char) (rest : List Char) : List (List Char) :=
    match rest with
    | [] => [cur.reverse]
    | x :: xs => if x = c then cur.reverse :: go [] xs else go (x :: cur) xs
  go [] l

/-- lexer.rs `parse_type_and_attrs`. -/
def parse_type_and_attrs (rest : String) (data : TokenData) : TokenData :=
  let s := rest.data.toArray
  let len := s.size
  -- check if entire rest is a quoted string
  if len > 0 && at_ s 0 = '"' &&
      (match find_closing_quote s 0 with
       | some close => close = len - 1
       | none => false) then
    match find_closing_quote s 0 with
    | some close => { data with description := some (sub s 1 close) }
    | none => data
  else
    -- parse type prefix
    let (data, pos) :=
      match re_type_part s with
      | none => (data, 0)
      | some (name, gen, par, q4, arr, q6, matchLen) =>
        let data := { data with type_name := some name }
        let data :=
          match gen with
          | none => data
          | some g =>
            { data with type_generic_params := (splitChar g.data ',').map (fun p => (⟨trimCs p⟩ : String)) }
        let data :=
          match par with
          | none => data
          | some p =>
            { data with type_params :=
                (splitChar p.data ',').map (fun q =>
                  let q := trimCs q
                  if isF64String q then ParamValue.num ⟨q⟩ else ParamValue.str ⟨q⟩) }
        let data :=
          if arr then
            { data with array := true, nullable := q6, array_item_nullable := q4 }
          else
            { data with array := false, nullable := q4 || q6, array_item_nullable := false }
        (data, skipSpaces s matchLen)
    -- parse default value
    let (data, pos) :=
      if pos < len && at_ s pos = '=' then
        let pos := skipSpaces s (pos + 1)
        if pos < len && at_ s pos = '"' then
          match find_closing_quote s pos with
          | some close =>
            ({ data with default_value := some (sub s pos (close + 1)) }, skipSpaces s (close + 1))
          | none => (data, pos)
        else if pos < len && at_ s pos = backtickChar then
          match find_closing_backtick s pos with
          | some close =>
            ({ data with default_value := some (sub s pos (close + 1)) }, skipSpaces s (close + 1))
          | none => (data, pos)
        else
          let rec scan (fuel : Nat) (p : Nat) : Nat :=
            match fuel with
            | 0 => p
            | fuel + 1 =>
              if p < len && at_ s p ≠ ' ' && at_ s p ≠ '@' && at_ s p ≠ '"' &&
                  at_ s p ≠ backtickChar then
                if at_ s p = '(' then
                  match find_balanced_paren s p with
                  | some closeP => scan fuel (closeP + 1)
                  | none => scan fuel (p + 1)
                else scan fuel (p + 1)
              else p
          let stop := scan (len + 1) pos
          ({ data with default_value := some (sub s pos stop) }, skipSpaces s stop)
      else (data, pos)
    -- parse attributes with cascade symbols
    let rec attrLoop (fuel : Nat) (pos : Nat) (attrs : List RawAttribute) :
        Nat × List RawAttribute :=
      match fuel with
      | 0 => (pos, attrs)
      | fuel + 1 =>
        if pos < len && (at_ s pos = '@' || at_ s pos = '!' || at_ s pos = '?') then
          if at_ s pos = '!' || at_ s pos = '?' then
            let (symbol, pos) :=
              if at_ s pos = '!' && pos + 1 < len && at_ s (pos + 1) = '!' then ("!!", pos + 2)
              else (String.singleton (at_ s pos), pos + 1)
            let attrs :=
              match attrs.reverse with
              | [] => attrs
              | last :: revInit => (revInit.reverse) ++ [{ last with cascade := some symbol }]
            attrLoop fuel (skipSpaces s pos) attrs
          else
            let pos := pos + 1
            let nameLen := countWhile s pos is_word_char
            let attr_name := sub s pos (pos + nameLen)
            let pos := pos + nameLen
            let (args, pos) :=
              if pos < len && at_ s pos = '(' then
                match find_balanced_paren s pos with
                | some closeP => (parse_attr_args_string (sub s (pos + 1) closeP), closeP + 1)
                | none => ([], pos)
              else ([], pos)
            attrLoop fuel (skipSpaces s pos)
              (attrs ++ [{ name := attr_name, args := args, cascade := none }])
        else (pos, attrs)
    let (pos, attrs) := attrLoop (len + 1) pos []
    let data := if attrs ≠ [] then { data with attributes := attrs } else data
    -- trailing description
    let pos := skipSpaces s pos
    if pos < len && at_ s pos = '"' then
      match find_closing_quote s pos with
      | some close => { data with description := some (sub s (pos + 1) close) }
      | none => data
    else data

/-- lexer.rs `parse_attributes_balanced`. -/
def parse_attributes_balanced (content : String) : List RawAttribute :=
  let s := content.data.toArray
  let len := s.size
  let rec go (fuel : Nat) (pos : Nat) (attrs : List RawAttribute) : List RawAttribute :=
    match fuel with
    | 0 => attrs
    | fuel + 1 =>
      if pos < len then
        match findFrom s '@' pos with
        | none => attrs
        | some atPos =>
          let pos := atPos + 1
          let nameLen := countWhile s pos is_word_char
          let name := sub s pos (pos + nameLen)
          let pos := pos + nameLen
          if name = "" then go fuel pos attrs
          else
            let (args, pos) :=
              if pos < len && at_ s pos = '(' then
                match find_balanced_paren s pos with
                | some closeP => (parse_attr_args_string (sub s (pos + 1) closeP), closeP + 1)
                | none => ([], pos)
              else ([], pos)
            go fuel pos (attrs ++ [{ name := name, args := args, cascade := none }])
      else attrs
  go (len + 1) 0 []

/-- RE_ENUM_VALUE `^([\w]+)(?:\(([^)]*)\))?\s+"((?:[^"\\]|\\.)*)"$`:
returns (name, optional label, description capture). -/
def re_enum_value (l : List Char) :
    Option (List Char × Option (List Char) × List Char) :=
  let name := l.takeWhile is_word_char
  if name = [] then none
  else
    let rest := l.drop name.length
    let labelStep : Option (Option (List Char) × List Char) :=
      match rest with
      | '(' :: inner =>
        let body := inner.takeWhile (· ≠ ')')
        (match inner.drop body.length with
         | ')' :: tail => some (some body, tail)
         | _ => none)
      | _ => some (none, rest)
    match labelStep with
    | none => none
    | some (label, rest2) =>
      let ws := rest2.takeWhile isWS
      if ws = [] then none
      else
        match rest2.drop ws.length with
        | '"' :: body =>
          -- scan `(?:[^"\\]|\\.)*` up to the first unescaped quote
          let rec scan (acc : List Char) (t : List Char) : Option (List Char × List Char) :=
            match t with
            | [] => none
            | '\\' :: c :: tail => scan (acc ++ ['\\', c]) tail
            | '\\' :: [] => none
            | '"' :: tail => some (acc, tail)
            | c :: tail => scan (acc ++ [c]) tail
          match scan [] body with
          | some (cap, tail) => if tail = [] then some (name, label, cap) else none
          | none => none
        | _ => none

/-- RE_FIELD_NAME `^([\w]+)(?:\(([^)]*)\))?\s*(?::\s*(.+))?$`:
returns (name, optional label, optional rest capture — still untrimmed,
the caller trims as the Rust code does). -/
def re_field_name (l : List Char) :
    Option (List Char × Option (List Char) × Option (List Char)) :=
  let name := l.takeWhile is_word_char
  if name = [] then none
  else
    let rest := l.drop name.length
    let labelStep : Option (Option (List Char) × List Char) :=
      match rest with
      | '(' :: inner =>
        let body := inner.takeWhile (· ≠ ')')
        (match inner.drop body.length with
         | ')' :: tail => some (some body, tail)
         | _ => none)
      | _ => some (none, rest)
    match labelStep with
    | none => none
    | some (label, rest2) =>
      let rest3 := rest2.dropWhile isWS
      match rest3 with
      | [] => some (name, label, none)
      | ':' :: s => if s = [] then none else some (name, label, some s)
      | _ => none

/-- lexer.rs `parse_field_line`. -/
def parse_field_line (content : List Char) : TokenData :=
  if content.head? = some '@' then
    { is_directive := true, attributes := parse_attributes_balanced ⟨content⟩ }
  else
    let d0 : TokenData := {}
    let (d1, content1) :=
      match re_inline_comment content with
      | some (pre, cap) => ({ d0 with comment := some (⟨cap⟩ : String) }, pre)
      | none => (d0, content)
    let (fw, removed) := re_framework_attrs content1
    let (d2, content2) :=
      if fw ≠ [] then
        ({ d1 with framework_attrs := fw.map (fun b => "[" ++ (⟨b⟩ : String) ++ "]") },
         trimCs removed)
      else (d1, content1)
    match re_enum_value content2 with
    | some (name, label, desc) =>
      { d2 with
        name := some (⟨name⟩ : String)
        label := label.map (fun x => (⟨x⟩ : String))
        description := some (⟨desc⟩ : String) }
    | none =>
      match re_field_name content2 with
      | none => { d2 with name := some (⟨content2⟩ : String) }
      | some (name, label, restCap) =>
        let d3 := { d2 with
          name := some (⟨name⟩ : String)
          label := label.map (fun x => (⟨x⟩ : String)) }
        match restCap with
        | none => d3
        | some rawRest =>
          let rest := trimCs rawRest
          if rest = [] then d3
          else parse_type_and_attrs ⟨rest⟩ d3

/-- parser.rs-side helper at lexer level: RE_NESTED_KV-based nested item
decoding (lexer.rs `parse_nested_item`). -/
def parse_nested_item (content : List Char) : TokenData :=
  let d0 : TokenData := {}
  let d1 :=
    match re_nested_kv content with
    | some (k, v) =>
      { d0 with key := some (⟨k⟩ : String), value := some (⟨trimCs v⟩ : String) }
    | none => d0
  let field_data := parse_field_line content
  -- Rust: `if data.key.is_none() || data.name.is_none()` — data.name is
  -- always none at this point, so the name is always carried over
  let d2 := if d1.key.isNone || d1.name.isNone then { d1 with name := field_data.name } else d1
  if field_data.type_name.isSome && d2.key.isNone then
    { d2 with
      type_name := field_data.type_name
      type_params := field_data.type_params
      type_generic_params := field_data.type_generic_params
      nullable := field_data.nullable
      array := field_data.array
      array_item_nullable := field_data.array_item_nullable
      default_value := field_data.default_value
      attributes := field_data.attributes
      description := field_data.description
      framework_attrs := field_data.framework_attrs
      label := field_data.label
      comment := field_data.comment }
  else d2

end M3l

namespace M3l

/-- Substring containment on char lists (Rust `str::contains`). -/
def containsSub (l sub : List Char) : Bool :=
  let rec go : List Char → Bool
    | [] => hasPfx [] sub
    | c :: rest => hasPfx (c :: rest) sub || go rest
  go l

/-- RE_TYPE_INDICATOR `^(@?[\w][\w.]*(?:\([^)]*\))?)\s*::(\w+)(.*)$`:
returns (namepart, type indicator, untrimmed rest). -/
def re_type_indicator (l : List Char) :
    Option (List Char × List Char × List Char) :=
  let core : List Char → Option (List Char × List Char) := fun body =>
    -- `[\w][\w.]*(?:\([^)]*\))?` at the head of body; returns (matched, rest)
    match body with
    | c :: _ =>
      if is_word_char c then
        let run := body.takeWhile (fun c => is_word_char c || c = '.')
        let after := body.drop run.length
        match after with
        | '(' :: inner =>
          let pbody := inner.takeWhile (· ≠ ')')
          (match inner.drop pbody.length with
           | ')' :: tail => some (run ++ '(' :: pbody ++ [')'], tail)
           | _ => some (run, after))
        | _ => some (run, after)
      else none
    | [] => none
  let step : Option (List Char × List Char) :=
    match l with
    | '@' :: rest =>
      (match core rest with
       | some (m, after) => some ('@' :: m, after)
       | none => none)
    | _ => core l
  match step with
  | none => none
  | some (namepart, after) =>
    let after2 := after.dropWhile isWS
    match after2 with
    | ':' :: ':' :: t =>
      let ind := t.takeWhile is_word_char
      if ind = [] then none
      else some (namepart, ind, t.drop ind.length)
    | _ => none

/-- RE_H2_INHERIT `^:\s*(.+?)(?:\s+@|\s*"|\s*$)`: returns the lazy capture. -/
def re_h2_inherit (l : List Char) : Option (List Char) :=
  match l with
  | ':' :: s =>
    let term : List Char → Bool := fun rem =>
      let ws := rem.takeWhile isWS
      let rest := rem.drop ws.length
      (ws ≠ [] && rest.head? = some '@') || rest.head? = some '"' || rest = []
    let rec firstK (pre : List Char) (suf : List Char) : Option (List Char) :=
      match suf with
      | [] => none
      | c :: rest =>
        let pre' := pre ++ [c]
        if term rest then some pre' else firstK pre' rest
    let rec tryWs (w : Nat) : Option (List Char) :=
      match firstK [] (s.drop w) with
      | some cap => some cap
      | none => match w with | 0 => none | w' + 1 => tryWs w'
    tryWs (s.takeWhile isWS).length
  | _ => none

/-- RE_MODEL_DEF `^([\w][\w.]*(?:\([^)]*\))?)\s*(?::\s*(.+?))?(\s+@.+)?$`:
returns (namepart, optional inherits capture, optional attrs capture),
captures untrimmed as the regex produces them. -/
def re_model_def (l : List Char) :
    Option (List Char × Option (List Char) × Option (List Char)) :=
  let core : Option (List Char × List Char) :=
    match l with
    | c :: _ =>
      if is_word_char c then
        let run := l.takeWhile (fun c => is_word_char c || c = '.')
        let after := l.drop run.length
        match after with
        | '(' :: inner =>
          let pbody := inner.takeWhile (· ≠ ')')
          (match inner.drop pbody.length with
           | ')' :: tail => some (run ++ '(' :: pbody ++ [')'], tail)
           | _ => some (run, after))
        | _ => some (run, after)
      else none
    | [] => none
  match core with
  | none => none
  | some (namepart, t) =>
    let ws := t.takeWhile isWS
    let r0 := t.drop ws.length
    if r0 = [] then some (namepart, none, none)
    else
      match r0 with
      | ':' :: s =>
        -- `\s*(.+?)(\s+@.+)?$` over s: `\s*` greedy, capture lazy, the
        -- attr group must reach the end of the line when present
        let attrOk : List Char → Bool := fun rem =>
          let w2 := rem.takeWhile isWS
          let r2 := rem.drop w2.length
          w2 ≠ [] && (match r2 with | '@' :: rest => rest ≠ [] | _ => false)
        let rec firstK (pre : List Char) (suf : List Char) :
            Option (List Char × Option (List Char)) :=
          match suf with
          | [] => none
          | c :: rest =>
            let pre' := pre ++ [c]
            if rest = [] then some (pre', none)
            else if attrOk rest then some (pre', some rest)
            else firstK pre' rest
        let rec tryWs (w : Nat) : Option (List Char × Option (List Char)) :=
          match firstK [] (s.drop w) with
          | some r => some r
          | none => match w with | 0 => none | w' + 1 => tryWs w'
        match tryWs (s.takeWhile isWS).length with
        | some (cap, attrs) => some (namepart, some cap, attrs)
        | none => none
      | '@' :: rest =>
        -- no colon: `(\s+@.+)?$` must consume `ws ++ r0`, needing at least
        -- one whitespace before `@` and one character after it
        if ws ≠ [] && rest ≠ [] then
          some (namepart, none, some (ws.drop (ws.length - 1) ++ r0))
        else none
      | _ => none

/-- lexer.rs `parse_name_label` (RE_NAME_LABEL). -/
def parse_name_label (s : List Char) : String × Option String :=
  match re_name_label s with
  | some (name, label) => ((⟨name⟩ : String), some (⟨label⟩ : String))
  | none => ((⟨s⟩ : String), none)

/-- lexer.rs `parse_namespace`. -/
def parse_namespace (content : List Char) : TokenData :=
  match re_namespace content with
  | some nm => { name := some (⟨nm⟩ : String), is_directive := true }
  | none => { name := some (⟨content⟩ : String) }

/-- Split an inheritance list: Rust
`s.split(',').map(trim).filter(non-empty)`. -/
def splitInherits (s : List Char) : List String :=
  ((splitChar s ',').map (fun p => (⟨trimCs p⟩ : String))).filter (· ≠ "")

/-- lexer.rs `tokenize_h2`. -/
def tokenize_h2 (content : List Char) (raw : String) (line : Nat) : Token :=
  match re_type_indicator content with
  | some (namepart, ind, rest0) =>
    let rest := trimCs rest0
    let (name, label) := parse_name_label namepart
    let inherits :=
      match re_h2_inherit rest with
      | some cap => splitInherits cap
      | none => []
    let indS : String := ⟨ind⟩
    let materialized :=
      if indS = "view" then some (containsSub rest "@materialized".data) else none
    let description := (re_h2_desc rest).map (fun d => (⟨d⟩ : String))
    let token_type :=
      if indS = "attribute" then TokenType.AttributeDef
      else if indS = "enum" then TokenType.Enum
      else if indS = "interface" then TokenType.Interface
      else if indS = "view" then TokenType.View
      else TokenType.Model
    { token_type := token_type, raw := raw, line := line, indent := 0,
      data := { name := some name, label := label, inherits := inherits,
                materialized := materialized, description := description } }
  | none =>
    match re_model_def content with
    | some (namepart, inhCap, attrsCap) =>
      let (name, label) := parse_name_label namepart
      let inherits :=
        match inhCap.map trimCs with
        | some s => if s ≠ [] then splitInherits s else []
        | none => []
      let attrs :=
        match attrsCap.map trimCs with
        | some attrsS =>
          (re_model_attrs attrsS).map (fun (anm, argsCap) =>
            let args :=
              match argsCap with
              | some a => if a ≠ [] then parse_attr_args_string ⟨a⟩ else []
              | none => []
            ({ name := (⟨anm⟩ : String), args := args, cascade := none } : RawAttribute))
        | none => []
      { token_type := TokenType.Model, raw := raw, line := line, indent := 0,
        data := { name := some name, label := label, inherits := inherits,
                  attributes := attrs } }
    | none =>
      { token_type := TokenType.Model, raw := raw, line := line, indent := 0,
        data := { name := some (⟨content⟩ : String) } }

/-- lexer.rs code-block back-patch: attach to the most recent Field or
Section token, skipping Blank tokens. -/
def attach_code_block (tokens : List Token) (cb : CodeBlock) : List Token :=
  let rec go (rev : List Token) : List Token :=
    match rev with
    | [] => []
    | t :: rest =>
      if t.token_type = TokenType.Field || t.token_type = TokenType.Section then
        { t with data := { t.data with code_block := some cb } } :: rest
      else if t.token_type = TokenType.Blank then t :: go rest
      else t :: rest
  (go tokens.reverse).reverse

/-- lexer.rs indented-blockquote back-patch: attach to the most recent Field
token, skipping Blank and Blockquote tokens, appending with a newline. -/
def attach_blockquote (tokens : List Token) (text : List Char) : List Token :=
  let rec go (rev : List Token) : List Token :=
    match rev with
    | [] => []
    | t :: rest =>
      if t.token_type = TokenType.Field then
        let newDesc :=
          match t.data.blockquote_desc with
          | some prev => prev ++ "\n" ++ (⟨text⟩ : String)
          | none => (⟨text⟩ : String)
        { t with data := { t.data with blockquote_desc := some newDesc } } :: rest
      else if t.token_type = TokenType.Blank || t.token_type = TokenType.Blockquote then
        t :: go rest
      else t :: rest
  (go tokens.reverse).reverse

/-- Join char-list lines with newlines. -/
def joinNl (ls : List (List Char)) : List Char :=
  match ls with
  | [] => []
  | [l] => l
  | l :: rest => l ++ '\n' :: joinNl rest

/-- lexer.rs `lex`: tokenize M3L markdown content. -/
def lex (content : String) (_file : String) : List Token :=
  -- Rust `content.split('\n')` (splitChar mirrors its semantics and keeps
  -- kernel reduction available)
  let lines := splitChar content.data '\n'
  let rec go (fuel : Nat) (lines : List (List Char)) (lineNum : Nat)
      (tokens : List Token) : List Token :=
    match fuel, lines with
    | 0, _ => tokens
    | _, [] => tokens
    | fuel + 1, rawLine :: rest =>
      let raw := stripCr rawLine
      let tff := trimStartCs raw
      if hasPfx tff "```".data then
        -- fenced code block
        let hint := trimCs (tff.drop 3)
        let lang_hint : Option String := if hint = [] then none else some (⟨hint⟩ : String)
        let fence_indent := raw.length - tff.length
        let isClose : List Char → Bool := fun ln =>
          hasPfx (trimStartCs (stripCr ln)) "```".data
        let code_lines := (rest.takeWhile (fun ln => !isClose ln)).map stripCr
        let consumed := code_lines.length
        let rest2 := (rest.drop consumed).drop 1
        let dedented := code_lines.map (fun l =>
          if l.length > fence_indent then l.drop fence_indent else trimStartCs l)
        let code_content := trimS ⟨joinNl dedented⟩
        let cb : CodeBlock := { language := lang_hint, content := code_content }
        go fuel rest2 (lineNum + consumed + 2) (attach_code_block tokens cb)
      else if re_blank raw then
        go fuel rest (lineNum + 1) (tokens ++
          [{ token_type := TokenType.Blank, raw := ⟨raw⟩, line := lineNum, indent := 0,
             data := {} }])
      else if re_hr (trimCs raw) then
        go fuel rest (lineNum + 1) (tokens ++
          [{ token_type := TokenType.HorizontalRule, raw := ⟨raw⟩, line := lineNum,
             indent := 0, data := {} }])
      else
        match re_heading "### ".data raw with
        | some h3 =>
          let h3_name := trimCs h3
          go fuel rest (lineNum + 1) (tokens ++
            [{ token_type := TokenType.Section, raw := ⟨raw⟩, line := lineNum, indent := 0,
               data := { kind_section := KIND_SECTIONS.contains (⟨h3_name⟩ : String),
                         name := some (⟨h3_name⟩ : String) } }])
        | none =>
        match re_heading "## ".data raw with
        | some h2 =>
          go fuel rest (lineNum + 1) (tokens ++ [tokenize_h2 (trimCs h2) ⟨raw⟩ lineNum])
        | none =>
        match re_heading "# ".data raw with
        | some h1 =>
          go fuel rest (lineNum + 1) (tokens ++
            [{ token_type := TokenType.Namespace, raw := ⟨raw⟩, line := lineNum,
               indent := 0, data := parse_namespace (trimCs h1) }])
        | none =>
        match re_blockquote raw with
        | some (bqIndent, bqText0) =>
          let bqText := trimCs bqText0
          if bqIndent ≥ 2 then
            go fuel rest (lineNum + 1) (attach_blockquote tokens bqText)
          else
            go fuel rest (lineNum + 1) (tokens ++
              [{ token_type := TokenType.Blockquote, raw := ⟨raw⟩, line := lineNum,
                 indent := 0, data := { name := some (⟨bqText⟩ : String) } }])
        | none =>
        match re_list_item raw with
        | some (indent, item_content) =>
          if indent ≥ 2 then
            go fuel rest (lineNum + 1) (tokens ++
              [{ token_type := TokenType.NestedItem, raw := ⟨raw⟩, line := lineNum,
                 indent := indent, data := parse_nested_item item_content }])
          else
            go fuel rest (lineNum + 1) (tokens ++
              [{ token_type := TokenType.Field, raw := ⟨raw⟩, line := lineNum,
                 indent := 0, data := parse_field_line item_content }])
        | none =>
          let trimmed := trimCs raw
          match re_import trimmed with
          | some path =>
            go fuel rest (lineNum + 1) (tokens ++
              [{ token_type := TokenType.Text, raw := ⟨raw⟩, line := lineNum, indent := 0,
                 data := { is_import := true, import_path := some (⟨path⟩ : String),
                           name := some (⟨trimmed⟩ : String) } }])
          | none =>
            go fuel rest (lineNum + 1) (tokens ++
              [{ token_type := TokenType.Text, raw := ⟨raw⟩, line := lineNum, indent := 0,
                 data := { name := some (⟨trimmed⟩ : String) } }])
  go (lines.length + 1) lines 1 []

end M3l

namespace M3l

-- ---------------------------------------------------------------------------
-- parser.rs : helpers
-- ---------------------------------------------------------------------------

/-- parser.rs `process_default_value`. -/
def process_default_value (raw : Option String) :
    Option String × Option DefaultValueType :=
  match raw with
  | none => (none, none)
  | some v =>
    let l := v.data
    if l.head? = some backtickChar && l.getLast? = some backtickChar && l.length ≥ 2 then
      (some ⟨(l.drop 1).dropLast⟩, some .expression)
    else if l.head? = some '"' && l.getLast? = some '"' && l.length ≥ 2 then
      (some ⟨(l.drop 1).dropLast⟩, some .literal)
    else
      let dvt := if l.contains '(' then DefaultValueType.expression else DefaultValueType.literal
      (some v, some dvt)

/-- parser.rs `parse_raw_attributes`: raw lexer attributes to resolved
attributes, tagging `isStandard`. -/
def parse_raw_attributes (raw_attrs : List RawAttribute) : List FieldAttribute :=
  raw_attrs.map (fun a =>
    { name := a.name
      args := if a.args = [] then none else some a.args
      cascade := a.cascade
      is_standard := if STANDARD_ATTRIBUTES.contains a.name then some true else none
      is_registered := none })

/-- parser.rs `split_rollup_args`: split on top-level commas, honoring
parentheses and two quote styles. -/
def split_rollup_args (args_str : String) : List String :=
  let step : (List String × List Char × Int × Bool × Char) → Char →
      (List String × List Char × Int × Bool × Char) := fun (parts, cur, depth, inQ, qc) ch =>
    if inQ then
      (parts, cur ++ [ch], depth, ch ≠ qc, qc)
    else if ch = '"' || ch = '\'' then
      (parts, cur ++ [ch], depth, true, ch)
    else if ch = '(' then (parts, cur ++ [ch], depth + 1, false, qc)
    else if ch = ')' then (parts, cur ++ [ch], depth - 1, false, qc)
    else if ch = ',' && depth = 0 then
      let trimmed := trimCs cur
      ((if trimmed ≠ [] then parts ++ [(⟨trimmed⟩ : String)] else parts), [], depth, false, qc)
    else (parts, cur ++ [ch], depth, false, qc)
  let (parts, cur, _, _, _) := args_str.data.foldl step ([], [], 0, false, ' ')
  let trimmed := trimCs cur
  if trimmed ≠ [] then parts ++ [(⟨trimmed⟩ : String)] else parts

/-- parser.rs `parse_rollup_args`. -/
def parse_rollup_args (args_str : String) : RollupDef :=
  let parts := split_rollup_args args_str
  let target_fk := (parts.head?).getD ""
  let (target, fk) :=
    match findIdx target_fk.data '.' with
    | some idx => ((⟨target_fk.data.take idx⟩ : String), (⟨target_fk.data.drop (idx + 1)⟩ : String))
    | none => (target_fk, "")
  let (aggregate, field) :=
    if parts.length > 1 then
      let agg_part := trimS parts[1]!
      match re_agg agg_part.data with
      | some (nm, fld) => ((⟨nm⟩ : String), fld.map (fun f => (⟨f⟩ : String)))
      | none => (agg_part, none)
    else ("", none)
  let where_clause := (parts.drop 2).foldl (fun acc p =>
    match re_where (trimCs p.data) with
    | some cap => some (⟨cap⟩ : String)
    | none => acc) none
  { target := target, fk := fk, aggregate := aggregate, field := field,
    where_clause := where_clause }

/-- parser.rs `split_computed_raw_args`: split a raw computed expression into
the quoted expression and an optional trailing platform tag.  (When the
quote never closes the Rust slice `raw[..=i]` would panic; that path is
unreachable for lexer-produced arguments and the embedding clamps.) -/
def split_computed_raw_args (raw : String) : String × Option String :=
  let s := raw.data.toArray
  let len := s.size
  if len = 0 then (raw, none)
  else
    let first := at_ s 0
    if first = '"' || first = '\'' || first = backtickChar then
      let rec go (fuel : Nat) (i : Nat) : Nat :=
        match fuel with
        | 0 => i
        | fuel + 1 =>
          if i < len then
            if at_ s i = '\\' then go fuel (i + 2)
            else if at_ s i = first then i
            else go fuel (i + 1)
          else i
      let i := go (len + 1) 1
      let expression := sub s 0 (i + 1)
      let remainder := trimS (sub s (i + 1) len)
      let platform := (re_platform remainder.data).map (fun c => (⟨c⟩ : String))
      (expression, platform)
    else (raw, none)

/-- parser.rs `split_balanced` (top-level commas, parentheses only). -/
def split_balanced (s : String) : List String :=
  let step : (List String × List Char × Int) → Char → (List String × List Char × Int) :=
    fun (parts, cur, depth) ch =>
      if ch = '(' then (parts, cur ++ [ch], depth + 1)
      else if ch = ')' then (parts, cur ++ [ch], depth - 1)
      else if ch = ',' && depth = 0 then (parts ++ [(⟨cur⟩ : String)], [], depth)
      else (parts, cur ++ [ch], depth)
  let (parts, cur, _) := s.data.foldl step ([], [], 0)
  parts ++ [(⟨cur⟩ : String)]

/-- parser.rs `parse_arg_value`.  (For a one-character quote string the Rust
slice would panic; the embedding guards the length.) -/
def parse_arg_value (s : String) : AttrArgValue :=
  if s = "true" then .bool true
  else if s = "false" then .bool false
  else if isF64String s.data then .num s
  else
    let l := s.data
    let unquoted :=
      if l.length ≥ 2 &&
          ((l.head? = some '"' && l.getLast? = some '"') ||
           (l.head? = some '\'' && l.getLast? = some '\'')) then
        (l.drop 1).dropLast
      else l
    .str ⟨unquoted⟩

/-- parser.rs `parse_custom_attributes`. -/
def parse_custom_attributes (raw_attrs : List String) : Option (List CustomAttribute) :=
  if raw_attrs = [] then none
  else some (raw_attrs.map (fun raw =>
    let content : String :=
      ⟨((raw.data.dropWhile (· = '[')).reverse.dropWhile (· = ']')).reverse⟩
    let parsed :=
      (re_custom_attr content.data).map (fun (nm, argsCap) =>
        let args :=
          match argsCap with
          | some a => (split_balanced ⟨a⟩).map (fun p => parse_arg_value (trimS p))
          | none => []
        { name := (⟨nm⟩ : String), arguments := args })
    { content := content, raw := raw, parsed := parsed }))

/-- parser.rs `attr_args_to_json`. -/
def attr_args_to_json (args : List AttrArgValue) : Json :=
  let one : AttrArgValue → Json := fun a =>
    match a with
    | .str s => .str s
    | .num n => .num n
    | .bool b => .bool b
  match args with
  | [a] => one a
  | _ => .arr (args.map one)

/-- parser.rs `parse_array_value`. -/
def parse_array_value (value : String) : List String :=
  let cleaned := (value.data.dropWhile (· = '[')).reverse.dropWhile (· = ']')
  ((splitChar cleaned.reverse ',').map (fun p => (⟨trimCs p⟩ : String))).filter (· ≠ "")

/-- parser.rs `parse_join_value` (`splitn(2, " on ")`). -/
def parse_join_value (value : String) : JoinDef :=
  let l := value.data
  let sep := " on ".data
  let rec findSep (pre : List Char) (suf : List Char) : Option (List Char × List Char) :=
    match suf with
    | [] => none
    | c :: rest =>
      if hasPfx (c :: rest) sep then some (pre, (c :: rest).drop sep.length)
      else findSep (pre ++ [c]) rest
  match findSep [] l with
  | some (before, after) => { model := (⟨trimCs before⟩ : String), on_ := (⟨trimCs after⟩ : String) }
  | none => { model := (⟨trimCs l⟩ : String), on_ := "" }

/-- parser.rs `parse_metadata_value` (integers keep integer shape; numbers
are carried as source text under the `F64 := String` convention). -/
def parse_metadata_value (value : String) : Json :=
  let l := value.data
  let was_quoted :=
    (l.head? = some '"' && l.getLast? = some '"') ||
    (l.head? = some '\'' && l.getLast? = some '\'')
  let unquoted :=
    ((l.dropWhile (fun c => c = '"' || c = '\'')).reverse.dropWhile
      (fun c => c = '"' || c = '\'')).reverse
  if was_quoted then .str ⟨unquoted⟩
  else if isF64String unquoted then .num ⟨unquoted⟩
  else if unquoted = "true".data then .bool true
  else if unquoted = "false".data then .bool false
  else .str ⟨unquoted⟩

/-- parser.rs `parse_nested_value`. -/
def parse_nested_value (value : String) : Json :=
  let s := trimCs value.data
  if s.head? = some '[' && s.getLast? = some ']' then
    .arr ((parse_array_value ⟨s⟩).map .str)
  else if s = "true".data then .bool true
  else if s = "false".data then .bool false
  else if isF64String s then .num ⟨s⟩
  else
    let unquoted :=
      ((s.dropWhile (fun c => c = '"' || c = '\'')).reverse.dropWhile
        (fun c => c = '"' || c = '\'')).reverse
    .str ⟨unquoted⟩

/-- parser.rs `is_source_directive`. -/
def is_source_directive (name : String) : Bool :=
  name = "from" || name = "where" || name = "order_by" || name = "group_by" || name = "join"

/-- parser.rs `set_source_directive`. -/
def set_source_directive (def_ : ViewSourceDef) (data : TokenData) : ViewSourceDef :=
  let name := data.name.getD ""
  let value := (data.description.orElse (fun _ => data.type_name)).getD ""
  if name = "from" then { def_ with from_ := some value }
  else if name = "where" then { def_ with where_clause := some value }
  else if name = "order_by" then { def_ with order_by := some value }
  else if name = "group_by" then { def_ with group_by := some (parse_array_value value) }
  else if name = "join" then
    { def_ with joins := some ((def_.joins.getD []) ++ [parse_join_value value]) }
  else def_

/-- Strip matching quote/backtick characters (Rust
`trim_start_matches(['"', '\'', '`']).trim_end_matches(...)`). -/
def trimQuoteChars (l : List Char) : List Char :=
  let isQ : Char → Bool := fun c => c = '"' || c = '\'' || c = backtickChar
  ((l.dropWhile isQ).reverse.dropWhile isQ).reverse

/-- parser.rs `build_field_node`, lookup detail: `@lookup` with a first
string argument yields the path. -/
def bfn_lookup (lookup_attr : Option FieldAttribute) : Option LookupDef :=
  match lookup_attr with
  | some la =>
    (match la.args.bind List.head? with
     | some (.str path) => some { path := path }
     | _ => none)
  | none => none

/-- parser.rs `build_field_node`, rollup detail: rejoin the lexer-split
arguments and parse them. -/
def bfn_rollup (rollup_attr : Option FieldAttribute) : Option RollupDef :=
  match rollup_attr with
  | some ra =>
    (match ra.args with
     | some args =>
       let args_str := String.intercalate ", " (args.map (fun a =>
         match a with
         | AttrArgValue.str s => s
         | AttrArgValue.num n => n
         | AttrArgValue.bool b => toString b))
       some (parse_rollup_args args_str)
     | none => none)
  | none => none

/-- parser.rs `build_field_node`, computed detail.  In the source the
`@computed` handler writes `field.computed` first, the `@computed_raw`
handler overwrites it when its own patterns match, and an attached code
block fills it only when it is still empty; rendered here as a direct
merge of the three sources in that priority order. -/
def bfn_computed (computed_attr computed_raw_attr : Option FieldAttribute)
    (code_block : Option CodeBlock) : Option ComputedDef :=
  let fromComputed : Option ComputedDef :=
    match computed_attr with
    | some ca =>
      (match ca.args.bind List.head? with
       | some (.str expr) =>
         some { expression := ⟨trimQuoteChars expr.data⟩, platform := none }
       | _ => none)
    | none => none
  let fromRaw : Option ComputedDef :=
    match computed_raw_attr with
    | some cra =>
      (match cra.args with
       | some args =>
         (match args.head? with
          | some (.str expr_raw) =>
            let parts := split_computed_raw_args expr_raw
            let cleaned : String := ⟨trimQuoteChars parts.1.data⟩
            let platform :=
              match parts.2 with
              | some p => some p
              | none =>
                (args.drop 1).foldl (fun acc arg =>
                  match acc with
                  | some _ => acc
                  | none =>
                    match arg with
                    | AttrArgValue.str s => (re_platform s.data).map (fun c => (⟨c⟩ : String))
                    | _ => none) none
            some { expression := cleaned, platform := platform }
          | _ => none)
       | none => none)
    | none => none
  let merged :=
    match fromRaw with
    | some c => some c
    | none => fromComputed
  match merged with
  | some c => some c
  | none =>
    match code_block with
    | some cb =>
      if computed_attr.isSome || computed_raw_attr.isSome then
        let platform :=
          match computed_raw_attr with
          | some cra =>
            (match cra.args.bind List.head? with
             | some (.str s) => (re_platform s.data).map (fun c => (⟨c⟩ : String))
             | _ => none)
          | none => none
        some { expression := cb.content, platform := platform }
      else none
    | none => none

/-- parser.rs `build_field_node`, description resolution: the inline
comment fills an empty description, an attached indented blockquote
overrides it. -/
def bfn_description (data : TokenData) : Option String :=
  match data.blockquote_desc with
  | some bq => some bq
  | none =>
    match data.description with
    | some d => some d
    | none => data.comment

/-- parser.rs `build_field_node`.  The Rust function builds the record and
then performs a sequence of writes to the pairwise-distinct detail fields;
the embedding assigns each field directly via the helpers above. -/
def build_field_node (data : TokenData) (token : Token) (file : String)
    (current_kind : FieldKind) : FieldNode :=
  let attrs := parse_raw_attributes data.attributes
  let lookup_attr := attrs.find? (fun a => a.name = "lookup")
  let rollup_attr := attrs.find? (fun a => a.name = "rollup")
  let computed_attr := attrs.find? (fun a => a.name = "computed")
  let computed_raw_attr := attrs.find? (fun a => a.name = "computed_raw")
  let kind :=
    if lookup_attr.isSome then FieldKind.lookup
    else if rollup_attr.isSome then FieldKind.rollup
    else if computed_attr.isSome || computed_raw_attr.isSome then FieldKind.computed
    else current_kind
  let (default_value, default_value_type) := process_default_value data.default_value
  let params := if data.type_params = [] then none else some data.type_params
  let generic_params := if data.type_generic_params = [] then none else some data.type_generic_params
  let framework_attrs := parse_custom_attributes data.framework_attrs
  FieldNode.mk
    { name := data.name.getD ""
      label := data.label
      field_type := data.type_name
      params := params
      generic_params := generic_params
      nullable := data.nullable
      array := data.array
      array_item_nullable := data.array_item_nullable
      kind := kind
      default_value := default_value
      default_value_type := default_value_type
      description := bfn_description data
      attributes := attrs
      framework_attrs := framework_attrs
      lookup := bfn_lookup lookup_attr
      rollup := bfn_rollup rollup_attr
      computed := bfn_computed computed_attr computed_raw_attr data.code_block
      enum_values := none }
    none
    { file := file, line := token.line, col := 1 }

/-- parser.rs `apply_extended_attribute`. -/
def apply_extended_attribute (field : FieldNode) (key : String) (value : String) : FieldNode :=
  if key = "type" then
    let t := value.data
    let (nullable, t) :=
      if t.getLast? = some '?' then (true, t.dropLast) else (field.data.nullable, t)
    let (array, t) :=
      if t.length ≥ 2 && (t.drop (t.length - 2)) = "[]".data then (true, t.take (t.length - 2))
      else (field.data.array, t)
    field.withData (fun d => { d with nullable := nullable, array := array,
                                      field_type := some (⟨t⟩ : String) })
  else if key = "description" then
    let parsed :=
      ((value.data.dropWhile (fun c => c = '"' || c = '\'')).reverse.dropWhile
        (fun c => c = '"' || c = '\'')).reverse
    field.withData (fun d => { d with description := some (⟨parsed⟩ : String) })
  else if key = "reference" || key = "on_delete" then
    field.withData (fun d => { d with attributes := d.attributes ++
      [{ name := key, args := some [.str value], cascade := none,
         is_standard := some true, is_registered := none }] })
  else
    let parsed_val := parse_arg_value value
    field.withData (fun d => { d with attributes := d.attributes ++
      [{ name := key, args := some [parsed_val], cascade := none,
         is_standard := if STANDARD_ATTRIBUTES.contains key then some true else none,
         is_registered := none }] })

end M3l

namespace M3l

-- ---------------------------------------------------------------------------
-- parser.rs : state machine
-- ---------------------------------------------------------------------------

/-- parser.rs `CurrentElement`. -/
inductive CurrentElement where
  | modelE : ModelNode → CurrentElement
  | enumE : EnumNode → CurrentElement
  | noneE : CurrentElement
deriving Inhabited

/-- parser.rs `AttrDef` (attribute-definition under construction). -/
structure AttrDef where
  name : String
  description : Option String
  fields : List (String × String)
deriving Inhabited

/-- parser.rs `ParserState`. -/
structure ParserState where
  file : String
  namespace_ : Option String
  current_element : CurrentElement
  current_section : Option String
  current_kind : FieldKind
  last_field_idx : Option Nat
  models : List ModelNode
  enums : List EnumNode
  interfaces : List ModelNode
  views : List ModelNode
  attribute_registry : List AttributeRegistryEntry
  current_attr_def : Option AttrDef
  source_directives_done : Bool
  imports : List String
deriving Inhabited

/-- Rust `usize::MAX`, used by parser.rs as a sentinel `last_field_idx`. -/
def usizeMax : Nat := 18446744073709551615

/-- The `serde_json::json!({"file": .., "line": .., "col": 1})` object. -/
def locJson (file : String) (line : Nat) : Json :=
  .obj [("file", .str file), ("line", .num (toString line)), ("col", .num "1")]

/-- Strip all leading `[` and trailing `]` characters (Rust
`trim_start_matches('[').trim_end_matches(']')`). -/
def stripBrackets (l : List Char) : List Char :=
  ((l.dropWhile (· = '[')).reverse.dropWhile (· = ']')).reverse

/-- Rust `str::split` with a multi-character separator. -/
def splitOnSub (l : List Char) (sep : List Char) : List (List Char) :=
  let rec go (fuel : Nat) (cur : List Char) (rest : List Char) : List (List Char) :=
    match fuel with
    | 0 => [cur.reverse ++ rest]
    | fuel + 1 =>
      match rest with
      | [] => [cur.reverse]
      | c :: tail =>
        if sep ≠ [] && hasPfx (c :: tail) sep then
          cur.reverse :: go fuel [] ((c :: tail).drop sep.length)
        else go fuel (c :: cur) tail
  go (l.length + 1) [] l

/-- parser.rs `handle_namespace`. -/
def handle_namespace (token : Token) (state : ParserState) : ParserState :=
  match state.current_element with
  | .noneE => { state with namespace_ := token.data.name }
  | _ => state

/-- parser.rs `finalize_attr_def`. -/
def finalize_attr_def (state : ParserState) : ParserState :=
  match state.current_attr_def with
  | none => state
  | some attr_def =>
    let state := { state with current_attr_def := none }
    let target_raw := (hmGet attr_def.fields "target").getD ""
    let target := ((splitChar (stripBrackets target_raw.data) ',').map
        (fun p => (⟨trimCs p⟩ : String))).filter (fun s => s = "field" || s = "model")
    let range : Option (F64 × F64) :=
      (hmGet attr_def.fields "range").bind (fun r =>
        let cleaned := stripBrackets r.data
        let separator := if containsSub cleaned "..".data then "..".data else ",".data
        let nums := (splitOnSub cleaned separator).map trimCs
        if nums.all isF64String && nums.length = 2 then
          some ((⟨nums[0]!⟩ : String), (⟨nums[1]!⟩ : String))
        else none)
    let required := ((hmGet attr_def.fields "required").map (fun v => v == "true")).getD false
    let default_value := (hmGet attr_def.fields "default").map (fun v =>
      if v = "true" then AttrArgValue.bool true
      else if v = "false" then AttrArgValue.bool false
      else if isF64String v.data then AttrArgValue.num v
      else AttrArgValue.str v)
    let entry : AttributeRegistryEntry :=
      { name := attr_def.name
        description := attr_def.description
        target := if target = [] then ["field"] else target
        attr_type := (hmGet attr_def.fields "type").getD "boolean"
        range := range
        required := required
        default_value := default_value }
    { state with attribute_registry := state.attribute_registry ++ [entry] }

/-- parser.rs `finalize_element`. -/
def finalize_element (state : ParserState) : ParserState :=
  let state := finalize_attr_def state
  let state :=
    match state.current_element with
    | .enumE en => { state with enums := state.enums ++ [en], current_element := .noneE }
    | .modelE model =>
      (match model.model_type with
       | .interface => { state with interfaces := state.interfaces ++ [model],
                                    current_element := .noneE }
       | .view => { state with views := state.views ++ [model], current_element := .noneE }
       | _ => { state with models := state.models ++ [model], current_element := .noneE })
    | .noneE => state
  { state with current_section := none, current_kind := .stored, last_field_idx := none }

/-- parser.rs `handle_model_start` (also used for interfaces). -/
def handle_model_start (token : Token) (state : ParserState) : ParserState :=
  let state := finalize_element state
  let model_attrs := parse_raw_attributes token.data.attributes
  let model_type :=
    if token.token_type = TokenType.Interface then ModelType.interface else ModelType.model
  let model : ModelNode :=
    { name := token.data.name.getD ""
      label := token.data.label
      model_type := model_type
      source := state.file
      line := token.line
      inherits := token.data.inherits
      description := none
      attributes := model_attrs
      fields := []
      sections := {}
      materialized := none
      source_def := none
      refresh := none
      loc := { file := state.file, line := token.line, col := 1 } }
  { state with
    current_element := .modelE model
    current_section := none
    current_kind := .stored
    last_field_idx := none
    source_directives_done := false }

/-- parser.rs `handle_enum_start`. -/
def handle_enum_start (token : Token) (state : ParserState) : ParserState :=
  let state := finalize_element state
  let enum_node : EnumNode :=
    { name := token.data.name.getD ""
      label := token.data.label
      enum_type := ModelType.enum
      source := state.file
      line := token.line
      inherits := token.data.inherits
      description := token.data.description
      values := []
      loc := { file := state.file, line := token.line, col := 1 } }
  { state with
    current_element := .enumE enum_node
    current_section := none
    current_kind := .stored
    last_field_idx := none }

/-- parser.rs `handle_view_start`. -/
def handle_view_start (token : Token) (state : ParserState) : ParserState :=
  let state := finalize_element state
  let materialized := token.data.materialized.getD false
  let view : ModelNode :=
    { name := token.data.name.getD ""
      label := token.data.label
      model_type := ModelType.view
      source := state.file
      line := token.line
      inherits := []
      description := none
      attributes := []
      materialized := some materialized
      fields := []
      sections := {}
      source_def := none
      refresh := none
      loc := { file := state.file, line := token.line, col := 1 } }
  { state with
    current_element := .modelE view
    current_section := none
    current_kind := .stored
    last_field_idx := none
    source_directives_done := false }

/-- parser.rs `handle_attribute_def_start`. -/
def handle_attribute_def_start (token : Token) (state : ParserState) : ParserState :=
  let state := finalize_element state
  let name : String := ⟨(token.data.name.getD "").data.dropWhile (· = '@')⟩
  let ad : AttrDef := { name := name, description := token.data.description, fields := [] }
  { state with current_attr_def := some ad }

/-- An empty ViewSourceDef (the `get_or_insert` default in parser.rs). -/
def emptySourceDef : ViewSourceDef :=
  { from_ := none, joins := none, where_clause := none, order_by := none,
    group_by := none, raw_sql := none, language_hint := none }

/-- parser.rs `handle_section`. -/
def handle_section (token : Token) (state : ParserState) : ParserState :=
  let section_name := token.data.name.getD ""
  if token.data.kind_section then
    match state.current_element with
    | .noneE => state
    | _ =>
      -- Rust `to_lowercase` / `starts_with`, per-character on ASCII input
      let lower := section_name.data.map Char.toLower
      let ck :=
        if hasPfx lower "lookup".data then FieldKind.lookup
        else if hasPfx lower "rollup".data then FieldKind.rollup
        else if hasPfx lower "computed".data then FieldKind.computed
        else state.current_kind
      { state with current_kind := ck, current_section := none, last_field_idx := none }
  else
    let state := { state with current_section := some section_name, last_field_idx := none }
    if section_name = "Source" then
      match state.current_element with
      | .modelE model =>
        if model.model_type = ModelType.view then
          let state := { state with source_directives_done := false }
          match token.data.code_block with
          | some cb =>
            let sd := model.source_def.getD emptySourceDef
            let sd := { sd with raw_sql := some cb.content, language_hint := cb.language }
            { state with current_element := .modelE { model with source_def := some sd } }
          | none => state
        else state
      | _ => state
    else state

/-- parser.rs `handle_directive`. -/
def handle_directive (data : TokenData) (model : ModelNode) (token : Token)
    (file : String) : ModelNode :=
  match data.attributes.head? with
  | none => model
  | some attr =>
    let loc := locJson file token.line
    let raw_content := trimS token.raw
    let args_val := if attr.args ≠ [] then some (attr_args_to_json attr.args) else none
    if attr.name = "index" || attr.name = "unique" then
      let entry : List (String × Json) :=
        [("type", .str "directive"), ("raw", .str raw_content)] ++
        (match args_val with | some a => [("args", a)] | none => []) ++
        [("unique", .bool (attr.name = "unique")), ("loc", loc)]
      { model with sections := { model.sections with
          indexes := model.sections.indexes ++ [.obj entry] } }
    else if attr.name = "relation" then
      let entry : List (String × Json) :=
        [("type", .str "directive"), ("raw", .str raw_content)] ++
        (match args_val with | some a => [("args", a)] | none => []) ++
        [("loc", loc)]
      { model with sections := { model.sections with
          relations := model.sections.relations ++ [.obj entry] } }
    else
      let section_name := if attr.name = "behavior" then "behaviors" else attr.name
      let entry : List (String × Json) :=
        [("raw", .str raw_content)] ++
        (match args_val with | some a => [("args", a)] | none => [])
      if section_name = "behaviors" then
        { model with sections := { model.sections with
            behaviors := model.sections.behaviors ++ [.obj entry] } }
      else
        let cur := (hmGet model.sections.custom section_name).getD (.arr [])
        let cur' :=
          match cur with
          | .arr xs => Json.arr (xs ++ [.obj entry])
          | other => other
        { model with sections := { model.sections with
            custom := hmInsert model.sections.custom section_name cur' } }

/-- parser.rs `handle_section_item`: returns the updated model, the updated
`source_directives_done` flag and the updated `last_field_idx`. -/
def handle_section_item (data : TokenData) (model : ModelNode) (token : Token)
    (file : String) (sectionName : String) (current_kind : FieldKind)
    (source_directives_done : Bool) (last_field_idx : Option Nat) :
    ModelNode × Bool × Option Nat :=
  let loc := locJson file token.line
  if sectionName = "Source" && model.model_type = ModelType.view then
    let name := data.name.getD ""
    if is_source_directive name && !source_directives_done then
      let sd := model.source_def.getD emptySourceDef
      ({ model with source_def := some (set_source_directive sd data) },
       source_directives_done, last_field_idx)
    else
      let field := build_field_node data token file current_kind
      let model := { model with fields := model.fields ++ [field] }
      (model, true, some (model.fields.length - 1))
  else if sectionName = "Refresh" && model.model_type = ModelType.view then
    let refresh := model.refresh.getD { strategy := "", interval := none }
    let name := data.name.getD ""
    let type_name := data.type_name
    let desc := data.description
    let refresh :=
      if name = "strategy" then { refresh with strategy := type_name.getD "" }
      else if name = "interval" then
        { refresh with interval := some ((desc.orElse (fun _ => type_name)).getD "") }
      else refresh
    ({ model with refresh := some refresh }, source_directives_done, last_field_idx)
  else if sectionName = "Indexes" then
    let entry : List (String × Json) :=
      [("name", .str (data.name.getD ""))] ++
      (match data.label with | some label => [("label", .str label)] | none => []) ++
      [("loc", loc)]
    ({ model with sections := { model.sections with
        indexes := model.sections.indexes ++ [.obj entry] } },
     source_directives_done, some usizeMax)
  else if sectionName = "Relations" then
    let raw : String := ⟨trimStartMatches (trimCs token.raw.data) "- ".data (token.raw.length + 1)⟩
    let entry : List (String × Json) := [("raw", .str raw), ("loc", loc)]
    ({ model with sections := { model.sections with
        relations := model.sections.relations ++ [.obj entry] } },
     source_directives_done, some usizeMax)
  else if sectionName = "Metadata" then
    let name := data.name.getD ""
    let value := (data.type_name.orElse (fun _ => data.description)).getD ""
    ({ model with sections := { model.sections with
        metadata := hmInsert model.sections.metadata name (parse_metadata_value value) } },
     source_directives_done, last_field_idx)
  else if sectionName = "Behaviors" then
    let entry : List (String × Json) :=
      [("name", .str (data.name.getD "")), ("raw", .str (trimS token.raw)), ("loc", loc)]
    ({ model with sections := { model.sections with
        behaviors := model.sections.behaviors ++ [.obj entry] } },
     source_directives_done, last_field_idx)
  else
    let entry : List (String × Json) :=
      [("name", .str (data.name.getD "")), ("raw", .str (trimS token.raw))] ++
      (match data.type_name.orElse (fun _ => data.description) with
       | some v => [("value", .str v)]
       | none => []) ++
      [("loc", loc)]
    let cur := (hmGet model.sections.custom sectionName).getD (.arr [])
    let cur' :=
      match cur with
      | .arr xs => Json.arr (xs ++ [.obj entry])
      | other => other
    ({ model with sections := { model.sections with
        custom := hmInsert model.sections.custom sectionName cur' } },
     source_directives_done, none)

end M3l

namespace M3l

/-- parser.rs `handle_field`. -/
def handle_field (token : Token) (state : ParserState) : ParserState :=
  match state.current_attr_def with
  | some attr_def =>
    -- attribute definition fields
    let name := token.data.name.getD ""
    let raw := trimStartMatches (trimCs token.raw.data) "- ".data (token.raw.length + 1)
    (match findIdx raw ':' with
     | some colon_idx =>
       let value := trimS ⟨raw.drop (colon_idx + 1)⟩
       let ad := { attr_def with fields := hmInsert attr_def.fields name value }
       { state with current_attr_def := some ad }
     | none => state)
  | none =>
    match state.current_element with
    | .noneE => state
    | .enumE enum_node =>
      let ev0 : EnumValue :=
        { name := token.data.name.getD ""
          description := token.data.description
          value_type := none
          value := none }
      let ev1 :=
        match token.data.type_name with
        | some tn =>
          if tn ≠ "enum" then
            match re_quote_str tn.data with
            | some cap => { ev0 with description := some (⟨cap⟩ : String) }
            | none => { ev0 with value_type := some tn }
          else ev0
        | none => ev0
      let ev2 :=
        match token.data.default_value with
        | some dv => { ev1 with value := some (.str dv) }
        | none => ev1
      let ev3 :=
        if ev2.description.isNone then
          match token.data.type_name with
          | some tn =>
            (match re_quote_str tn.data with
             | some cap => { ev2 with description := some (⟨cap⟩ : String), value_type := none }
             | none => ev2)
          | none => ev2
        else ev2
      { state with current_element := .enumE { enum_node with values := enum_node.values ++ [ev3] } }
    | .modelE model =>
      if token.data.is_directive then
        { state with current_element := .modelE (handle_directive token.data model token state.file) }
      else
        match state.current_section with
        | some sectionName =>
          let (model', sdd, lfi) :=
            handle_section_item token.data model token state.file sectionName
              state.current_kind state.source_directives_done state.last_field_idx
          { state with
            current_element := .modelE model'
            source_directives_done := sdd
            last_field_idx := lfi }
        | none =>
          let field := build_field_node token.data token state.file state.current_kind
          let model' := { model with fields := model.fields ++ [field] }
          { state with
            current_element := .modelE model'
            last_field_idx := some (model'.fields.length - 1) }

/-- Update the last element of a Json list by inserting a key (parser.rs
nested-item handling for index / relation entries). -/
def updateLastObj (xs : List Json) (k : String) (v : Json) : List Json :=
  match xs.reverse with
  | [] => xs
  | last :: revInit =>
    (match last with
     | .obj kvs => revInit.reverse ++ [Json.obj (hmInsert kvs k v)]
     | other => revInit.reverse ++ [other])

/-- parser.rs `handle_nested_item`. -/
def handle_nested_item (token : Token) (state : ParserState) : ParserState :=
  let data := token.data
  let key := data.key
  let value := data.value
  match state.current_element with
  | .noneE => state
  | .enumE enum_node =>
    (match key with
     | some k =>
       let v0 : EnumValue := { name := k, description := none, value_type := none, value := none }
       let v1 :=
         match value with
         | some v =>
           (match re_quote_str v.data with
            | some cap => { v0 with description := some (⟨cap⟩ : String) }
            | none => { v0 with value := some (.str v) })
         | none => v0
       { state with current_element := .enumE { enum_node with values := enum_node.values ++ [v1] } }
     | none => state)
  | .modelE model =>
    -- nested items under index
    if state.current_section = some "Indexes" && state.last_field_idx.isSome then
      match key with
      | some k =>
        let model' := { model with sections := { model.sections with
            indexes := updateLastObj model.sections.indexes k
              (parse_nested_value (value.getD "")) } }
        { state with current_element := .modelE model' }
      | none => state
    -- nested items under relation
    else if state.current_section = some "Relations" && state.last_field_idx.isSome then
      match key with
      | some k =>
        let model' := { model with sections := { model.sections with
            relations := updateLastObj model.sections.relations k
              (parse_nested_value (value.getD "")) } }
        { state with current_element := .modelE model' }
      | none => state
    else
      let fieldBranch : Option ParserState :=
        match state.last_field_idx with
        | some field_idx =>
          if h : field_idx < model.fields.length then
            let fld := model.fields[field_idx]
            -- `values:` key for inline enum
            if key = some "values" && value.isNone then
              let fld' :=
                if fld.data.enum_values.isNone then
                  fld.withData (fun d => { d with enum_values := some [] })
                else fld
              let model' := { model with fields := model.fields.set field_idx fld' }
              some { state with current_element := .modelE model' }
            -- existing enum_values: append
            else if fld.data.enum_values.isSome then
              match key with
              | some k =>
                let ev0 : EnumValue :=
                  { name := k, description := none, value_type := none, value := none }
                let ev1 :=
                  match value with
                  | some v =>
                    (match re_quote_str v.data with
                     | some cap => { ev0 with description := some (⟨cap⟩ : String) }
                     | none => { ev0 with value := some (.str v) })
                  | none => ev0
                let fld' := fld.withData (fun d =>
                  { d with enum_values := some ((d.enum_values.getD []) ++ [ev1]) })
                let model' := { model with fields := model.fields.set field_idx fld' }
                some { state with current_element := .modelE model' }
              | none => fallThrough fld field_idx
            else fallThrough fld field_idx
          else none
        | none => none
      match fieldBranch with
      | some st => st
      | none =>
        -- view Source nested items
        if state.current_section = some "Source" && model.model_type = ModelType.view then
          match key with
          | some k =>
            let sub_data : TokenData :=
              { name := some k, type_name := value }
            (match model.source_def with
             | some sd =>
               let model' := { model with source_def := some (set_source_directive sd sub_data) }
               { state with current_element := .modelE model' }
             | none => state)
          | none => state
        else state
where
  -- the inline-enum / object-sub-field / extended-attribute tail of the
  -- field-indexed branch of parser.rs handle_nested_item
  fallThrough (fld : FieldNode) (field_idx : Nat) : Option ParserState := do
    let data := token.data
    let key := data.key
    let value := data.value
    let model ←
      match state.current_element with
      | .modelE m => some m
      | _ => none
    -- inline enum without `values:` key
    if fld.field_type = some "enum" then
      match key with
      | some k =>
        if (match value with | none => true | some v => !(v.data.contains ':')) then
          let ev0 : EnumValue :=
            { name := k, description := none, value_type := none, value := none }
          let ev1 :=
            match value with
            | some v =>
              (match re_quote_str v.data with
               | some cap => { ev0 with description := some (⟨cap⟩ : String) }
               | none => ev0)
            | none => ev0
          let withVals :=
            if fld.data.enum_values.isNone then
              fld.withData (fun d => { d with enum_values := some [] })
            else fld
          let fld' := withVals.withData (fun d =>
            { d with enum_values := some ((d.enum_values.getD []) ++ [ev1]) })
          let model' := { model with fields := model.fields.set field_idx fld' }
          return { state with current_element := .modelE model' }
        else objectOrExtended fld field_idx model
      | none => objectOrExtended fld field_idx model
    else objectOrExtended fld field_idx model
  -- object sub-field then extended-attribute handling
  objectOrExtended (fld : FieldNode) (field_idx : Nat) (model : ModelNode) :
      Option ParserState := do
    let data := token.data
    let key := data.key
    let value := data.value
    match key, value with
    | some k, some v =>
      if fld.field_type = some "object" then
        let sub_data : TokenData := { name := some k }
        let sub_data := parse_type_and_attrs v sub_data
        if sub_data.type_name.isSome then
          let sub_field := build_field_node sub_data token state.file state.current_kind
          let fld' := fld.withFields (some ((fld.fields.getD []) ++ [sub_field]))
          let model' := { model with fields := model.fields.set field_idx fld' }
          return { state with current_element := .modelE model' }
        else extended fld field_idx model
      else extended fld field_idx model
    | _, _ => extended fld field_idx model
  -- extended-format field attributes (and the terminal return)
  extended (fld : FieldNode) (field_idx : Nat) (model : ModelNode) :
      Option ParserState :=
    match token.data.key with
    | some k =>
      let fld' := apply_extended_attribute fld k (token.data.value.getD "")
      let model' := { model with fields := model.fields.set field_idx fld' }
      some { state with current_element := .modelE model' }
    | none => some state

/-- parser.rs `handle_blockquote`. -/
def handle_blockquote (token : Token) (state : ParserState) : ParserState :=
  let text := token.data.name.getD ""
  match state.current_attr_def with
  | some attr_def =>
    { state with current_attr_def := some { attr_def with description := some text } }
  | none =>
    match state.current_element with
    | .noneE => state
    | .enumE en =>
      let en' :=
        match en.description with
        | some desc => { en with description := some (desc ++ "\n" ++ text) }
        | none => { en with description := some text }
      { state with current_element := .enumE en' }
    | .modelE model =>
      match state.last_field_idx with
      | some idx =>
        if idx < model.fields.length then
          let fld := model.fields[idx]!
          let fld' := fld.withData (fun d =>
            match d.description with
            | some desc => { d with description := some (desc ++ "\n" ++ text) }
            | none => { d with description := some text })
          let model' := { model with fields := model.fields.set idx fld' }
          { state with current_element := .modelE model' }
        else
          modelLevel model text state
      | none => modelLevel model text state
where
  modelLevel (model : ModelNode) (text : String) (state : ParserState) : ParserState :=
    let model' :=
      match model.description with
      | some desc => { model with description := some (desc ++ "\n" ++ text) }
      | none => { model with description := some text }
    { state with current_element := .modelE model' }

/-- parser.rs `handle_text`. -/
def handle_text (token : Token) (state : ParserState) : ParserState :=
  if token.data.is_import then
    match token.data.import_path with
    | some path => { state with imports := state.imports ++ [path] }
    | none => state
  else
    match state.current_element with
    | .modelE model =>
      if model.fields.isEmpty then
        let text := token.data.name.getD ""
        if text ≠ "" && model.description.isNone then
          { state with current_element := .modelE { model with description := some text } }
        else state
      else state
    | _ => state

/-- parser.rs `process_token`. -/
def process_token (token : Token) (state : ParserState) : ParserState :=
  match token.token_type with
  | .Namespace => handle_namespace token state
  | .Model | .Interface => handle_model_start token state
  | .Enum => handle_enum_start token state
  | .View => handle_view_start token state
  | .AttributeDef => handle_attribute_def_start token state
  | .Section => handle_section token state
  | .Field => handle_field token state
  | .NestedItem => handle_nested_item token state
  | .Blockquote => handle_blockquote token state
  | .Text => handle_text token state
  | .HorizontalRule | .Blank => state

/-- parser.rs `parse_tokens`. -/
def parse_tokens (tokens : List Token) (file : String) : ParsedFile :=
  let state0 : ParserState :=
    { file := file
      namespace_ := none
      current_element := .noneE
      current_section := none
      current_kind := .stored
      last_field_idx := none
      models := []
      enums := []
      interfaces := []
      views := []
      attribute_registry := []
      current_attr_def := none
      source_directives_done := false
      imports := [] }
  let state := tokens.foldl (fun st t => process_token t st) state0
  let state := finalize_element state
  { source := file
    namespace_ := state.namespace_
    models := state.models
    enums := state.enums
    interfaces := state.interfaces
    views := state.views
    attribute_registry := state.attribute_registry
    imports := state.imports }

/-- parser.rs `parse_string`. -/
def parse_string (content : String) (file : String) : ParsedFile :=
  parse_tokens (lex content file) file

end M3l

namespace M3l

-- ---------------------------------------------------------------------------
-- resolver.rs
-- ---------------------------------------------------------------------------

/-- HashMap entry().or_default().push(v) for vector-valued maps. -/
def hmPush (m : List (String × List α)) (k : String) (v : α) : List (String × List α) :=
  if m.any (fun p => p.1 = k) then
    m.map (fun p => if p.1 = k then (p.1, p.2 ++ [v]) else p)
  else m ++ [(k, [v])]

/-- HashSet insert (idempotent). -/
def hsInsert (s : List String) (x : String) : List String :=
  if s.contains x then s else s ++ [x]

/-- First-occurrence deduplication (models collecting into a HashSet whose
iteration the embedding fixes to insertion order). -/
def dedupNs (l : List (Option String)) : List (Option String) :=
  l.foldl (fun acc x => if acc.contains x then acc else acc ++ [x]) []

/-- Build an error diagnostic at column 1 (every resolver diagnostic has
severity `error` and column 1). -/
def errDiag (code : String) (file : String) (line : Nat) (message : String) : Diagnostic :=
  { code := code, severity := .error, file := file, line := line, col := 1, message := message }

/-- resolver.rs `check_duplicate`. -/
def check_duplicate (name kind source : String) (line : Nat)
    (all_named : List (String × (String × String × Nat)))
    (errors : List Diagnostic) : List Diagnostic :=
  match hmGet all_named name with
  | some (_, existing_file, existing_line) =>
    errors ++ [errDiag "M3L-E005" source line
      ("Duplicate " ++ kind ++ " name \"" ++ name ++ "\" (first defined in " ++
        existing_file ++ ":" ++ toString existing_line ++ ")")]
  | none => errors

/-- The context threaded through resolver.rs `collect_fields` (the read-only
arguments of the Rust function). -/
structure InheritCtx where
  model_source : String
  model_line : Nat
  model_name : String
  all_models : List ModelNode
  model_map : List (String × Nat)
  all_interfaces : List ModelNode
  interface_map : List (String × Nat)
  all_named : List (String × (String × String × Nat))

/-- The mutable state threaded through resolver.rs `collect_fields`. -/
structure InheritSt where
  inherited_fields : List FieldNode
  resolved : List String
  visiting : List String
  errors : List Diagnostic

/-- resolver.rs `collect_fields` (the inner recursion of
`resolve_inheritance`); `fuel` bounds the recursion depth, which the
`visiting` set already bounds by the number of known parents. -/
def collect_fields (fuel : Nat) (ctx : InheritCtx) (name : String)
    (st : InheritSt) : InheritSt :=
  match fuel with
  | 0 => st
  | fuel + 1 =>
    if st.resolved.contains name || st.visiting.contains name then st
    else
      let st := { st with visiting := hsInsert st.visiting name }
      let parent : Option ModelNode :=
        match hmGet ctx.model_map name with
        | some idx => ctx.all_models[idx]?
        | none =>
          match hmGet ctx.interface_map name with
          | some idx => ctx.all_interfaces[idx]?
          | none => none
      match parent with
      | none =>
        let errors :=
          if !hmContains ctx.all_named name then
            st.errors ++ [errDiag "M3L-E007" ctx.model_source ctx.model_line
              ("Unresolved inheritance reference \"" ++ name ++
                "\" in model \"" ++ ctx.model_name ++ "\"")]
          else st.errors
        { st with visiting := st.visiting.erase name, errors := errors }
      | some parent_model =>
        -- resolve grandparents first
        let st := parent_model.inherits.foldl
          (fun acc grandparent => collect_fields fuel ctx grandparent acc) st
        -- add parent's fields (skipping names already present)
        let inherited_fields :=
          parent_model.fields.foldl
            (fun acc f => if acc.any (fun g => g.name = f.name) then acc else acc ++ [f])
            st.inherited_fields
        { st with
          inherited_fields := inherited_fields
          visiting := st.visiting.erase name
          resolved := st.resolved ++ [name] }

/-- resolver.rs `resolve_inheritance` (mutates `all_models[model_idx]` and
appends diagnostics). -/
def resolve_inheritance (model_idx : Nat) (all_models : List ModelNode)
    (model_map : List (String × Nat)) (all_interfaces : List ModelNode)
    (interface_map : List (String × Nat))
    (all_named : List (String × (String × String × Nat)))
    (errors : List Diagnostic) : List ModelNode × List Diagnostic :=
  match all_models[model_idx]? with
  | none => (all_models, errors)
  | some model =>
    if model.inherits.isEmpty then (all_models, errors)
    else
      let ctx : InheritCtx :=
        { model_source := model.source
          model_line := model.line
          model_name := model.name
          all_models := all_models
          model_map := model_map
          all_interfaces := all_interfaces
          interface_map := interface_map
          all_named := all_named }
      let fuel := all_models.length + all_interfaces.length + 2
      let st := model.inherits.foldl
        (fun acc parent_name => collect_fields fuel ctx parent_name acc)
        { inherited_fields := [], resolved := [], visiting := [], errors := errors }
      let inherited_fields := st.inherited_fields
      let errors := st.errors
      -- handle @override by subtraction
      let override_names :=
        (model.fields.filter (fun f => f.attributes.any (fun a => a.name = "override"))).map
          FieldNode.name
      let filtered_inherited :=
        inherited_fields.filter (fun f => !override_names.contains f.name)
      -- prepend inherited fields
      if filtered_inherited.isEmpty then (all_models, errors)
      else
        let model' := { model with fields := filtered_inherited ++ model.fields }
        (all_models.set model_idx model', errors)

/-- resolver.rs `check_duplicate_fields`. -/
def check_duplicate_fields (model : ModelNode) (errors : List Diagnostic) :
    List Diagnostic :=
  let model_type :=
    match model.model_type with
    | .model => "model"
    | .view => "view"
    | .interface => "interface"
    | .enum => "enum"
  let step := fun (acc : List (String × Nat) × List Diagnostic) (field : FieldNode) =>
    let (seen, errs) := acc
    match hmGet seen field.name with
    | some existing_line =>
      (seen, errs ++ [errDiag "M3L-E005" field.loc.file field.loc.line
        ("Duplicate field name \"" ++ field.name ++ "\" in " ++ model_type ++
          " \"" ++ model.name ++ "\" (first at line " ++ toString existing_line ++ ")")])
    | none => (hmInsert seen field.name field.loc.line, errs)
  (model.fields.foldl step ([], errors)).2

/-- resolver.rs `dfs_detect_cycle`; `fuel` bounds the recursion depth, which
the growing `visited` set already bounds by the number of graph nodes. -/
def dfs_detect_cycle (fuel : Nat) (node : String)
    (adj : List (String × List String)) (visited : List String)
    (rec_stack : List String) (errors : List Diagnostic) :
    List String × List String × List Diagnostic :=
  match fuel with
  | 0 => (visited, rec_stack, errors)
  | fuel + 1 =>
    let visited := hsInsert visited node
    let rec_stack := rec_stack ++ [node]
    let (visited, rec_stack, errors) :=
      match hmGet adj node with
      | none => (visited, rec_stack, errors)
      | some imports =>
        imports.foldl
          (fun (acc : List String × List String × List Diagnostic) imp =>
            let (v, r, e) := acc
            if !v.contains imp then
              if hmContains adj imp then dfs_detect_cycle fuel imp adj v r e
              else (v, r, e)
            else if r.contains imp then
              let cycle_start := (r.findIdx? (fun n => n = imp)).getD 0
              let chain := r.drop cycle_start
              let chain_str := String.intercalate " → " (chain ++ [imp])
              (v, r, e ++ [errDiag "M3L-E003" node 1
                ("Circular import detected: " ++ chain_str)])
            else (v, r, e))
          (visited, rec_stack, errors)
    (visited, rec_stack.dropLast, errors)

/-- resolver.rs `detect_circular_imports_internal` /
`detect_circular_imports`. -/
def detect_circular_imports (file_imports : List (String × List String)) :
    List Diagnostic :=
  let adj := file_imports.foldl (fun m p => hmInsert m p.1 p.2) []
  let (_, _, errors) :=
    file_imports.foldl
      (fun (acc : List String × List String × List Diagnostic) p =>
        let (visited, rec_stack, errs) := acc
        if !visited.contains p.1 then
          dfs_detect_cycle (file_imports.length + 1) p.1 adj visited rec_stack errs
        else acc)
      ([], [], [])
  errors

/-- resolver.rs attribute-registry tagging (`tag_attrs` closure). -/
def tag_attrs (registered_names : List String) (attrs : List FieldAttribute) :
    List FieldAttribute :=
  attrs.map (fun a =>
    if registered_names.contains a.name then { a with is_registered := some true } else a)

/-- resolver.rs `resolve`. -/
def resolve (files : List ParsedFile) (project : Option ProjectInfo) : M3lAst :=
  let sources := files.map (·.source)
  let all_models := files.foldl (fun acc f => acc ++ f.models) []
  let all_enums := files.foldl (fun acc f => acc ++ f.enums) []
  let all_interfaces := files.foldl (fun acc f => acc ++ f.interfaces) []
  let all_views := files.foldl (fun acc f => acc ++ f.views) []
  let all_attr_registry := files.foldl (fun acc f => acc ++ f.attribute_registry) []
  -- source → namespace map
  let source_ns : List (String × Option String) :=
    files.foldl (fun m f => hmInsert m f.source f.namespace_) []
  let nsOf : String → Option String := fun src => (hmGet source_ns src).bind id
  -- name maps and duplicate detection
  let modelStep := fun
      (acc : List Diagnostic × List (String × Nat) ×
        List (String × (String × String × Nat)) ×
        List (String × List (Option String × String × Nat)) × Nat)
      (model : ModelNode) =>
    let (errors, model_map, all_named, name_ns_map, i) := acc
    let errors := check_duplicate model.name "model" model.source model.line all_named errors
    let model_map := hmInsert model_map model.name i
    let all_named := hmInsert all_named model.name ("model", model.source, model.line)
    let name_ns_map := hmPush name_ns_map model.name (nsOf model.source, model.source, model.line)
    (errors, model_map, all_named, name_ns_map, i + 1)
  let (errors, model_map, all_named, name_ns_map, _) :=
    all_models.foldl modelStep ([], [], [], [], 0)
  let enumStep := fun
      (acc : List Diagnostic × List (String × (String × String × Nat)) ×
        List (String × List (Option String × String × Nat)))
      (en : EnumNode) =>
    let (errors, all_named, name_ns_map) := acc
    let errors := check_duplicate en.name "enum" en.source en.line all_named errors
    let all_named := hmInsert all_named en.name ("enum", en.source, en.line)
    let name_ns_map := hmPush name_ns_map en.name (nsOf en.source, en.source, en.line)
    (errors, all_named, name_ns_map)
  let (errors, all_named, name_ns_map) := all_enums.foldl enumStep (errors, all_named, name_ns_map)
  let ifaceStep := fun
      (acc : List Diagnostic × List (String × Nat) ×
        List (String × (String × String × Nat)) ×
        List (String × List (Option String × String × Nat)) × Nat)
      (iface : ModelNode) =>
    let (errors, interface_map, all_named, name_ns_map, i) := acc
    let errors := check_duplicate iface.name "interface" iface.source iface.line all_named errors
    let interface_map := hmInsert interface_map iface.name i
    let all_named := hmInsert all_named iface.name ("interface", iface.source, iface.line)
    let name_ns_map := hmPush name_ns_map iface.name (nsOf iface.source, iface.source, iface.line)
    (errors, interface_map, all_named, name_ns_map, i + 1)
  let (errors, interface_map, all_named, name_ns_map, _) :=
    all_interfaces.foldl ifaceStep (errors, [], all_named, name_ns_map, 0)
  let viewStep := fun
      (acc : List (String × (String × String × Nat)) ×
        List (String × List (Option String × String × Nat)))
      (view : ModelNode) =>
    let (all_named, name_ns_map) := acc
    let all_named := hmInsert all_named view.name ("view", view.source, view.line)
    let name_ns_map := hmPush name_ns_map view.name (nsOf view.source, view.source, view.line)
    (all_named, name_ns_map)
  let (all_named, name_ns_map) := all_views.foldl viewStep (all_named, name_ns_map)
  -- E008: same name in multiple namespaces
  let errors :=
    name_ns_map.foldl
      (fun errs (entry : String × List (Option String × String × Nat)) =>
        let (name, entries) := entry
        if entries.length < 2 then errs
        else
          let distinct_ns := dedupNs (entries.map (fun e => e.1))
          if distinct_ns.length ≥ 2 then
            let ns_display :=
              String.intercalate ", " (distinct_ns.map (fun ns => ns.getD "(none)"))
            match entries[1]? with
            | some (_, file, line) =>
              errs ++ [errDiag "M3L-E008" file line
                ("Ambiguous model reference \"" ++ name ++ "\" in namespaces " ++
                  ns_display)]
            | none => errs
          else errs)
      errors
  -- resolve inheritance
  let (all_models, errors) :=
    (List.range all_models.length).foldl
      (fun (acc : List ModelNode × List Diagnostic) i =>
        resolve_inheritance i acc.1 model_map all_interfaces interface_map all_named acc.2)
      (all_models, errors)
  -- duplicate field names
  let errors := (all_models ++ all_views).foldl (fun errs m => check_duplicate_fields m errs) errors
  -- tag isRegistered
  let (all_models, all_views, all_interfaces) :=
    if all_attr_registry.isEmpty then (all_models, all_views, all_interfaces)
    else
      let registered_names := all_attr_registry.map (·.name)
      let tagModel := fun (m : ModelNode) =>
        { m with
          attributes := tag_attrs registered_names m.attributes
          fields := m.fields.map (fun f =>
            f.withData (fun d => { d with attributes := tag_attrs registered_names d.attributes })) }
      (all_models.map tagModel, all_views.map tagModel, all_interfaces.map tagModel)
  -- circular imports
  let errors := errors ++ detect_circular_imports (files.map (fun f => (f.source, f.imports)))
  -- project info
  let project_info := project.getD { name := none, version := none }
  let project_info :=
    if project_info.name.isNone then
      { project_info with name := files.foldl (fun acc f => acc.orElse (fun _ => f.namespace_)) none }
    else project_info
  { parser_version := PARSER_VERSION
    ast_version := AST_VERSION
    project := project_info
    sources := sources
    models := all_models
    enums := all_enums
    interfaces := all_interfaces
    views := all_views
    attribute_registry := all_attr_registry
    errors := errors
    warnings := [] }

end M3l

namespace M3l

-- ---------------------------------------------------------------------------
-- types.rs : serde JSON serialization (each function mirrors the
-- #[derive(Serialize)] output: declaration order, `rename` attributes,
-- `skip_serializing_if = "Option::is_none"` omission)
-- ---------------------------------------------------------------------------

/-- An optional key: present with its serialized value, or omitted. -/
def optKey (name : String) (v : Option α) (f : α → Json) : List (String × Json) :=
  match v with
  | some x => [(name, f x)]
  | none => []

def sourceLocationToJson (l : SourceLocation) : Json :=
  .obj [("file", .str l.file), ("line", .num (toString l.line)),
        ("col", .num (toString l.col))]

def attrArgValueToJson : AttrArgValue → Json
  | .str s => .str s
  | .num n => .num n
  | .bool b => .bool b

def paramValueToJson : ParamValue → Json
  | .str s => .str s
  | .num n => .num n

def fieldKindToJson : FieldKind → Json
  | .stored => .str "stored"
  | .computed => .str "computed"
  | .lookup => .str "lookup"
  | .rollup => .str "rollup"

def defaultValueTypeToJson : DefaultValueType → Json
  | .literal => .str "literal"
  | .expression => .str "expression"

def fieldAttributeToJson (a : FieldAttribute) : Json :=
  .obj ([("name", .str a.name)] ++
    optKey "args" a.args (fun xs => .arr (xs.map attrArgValueToJson)) ++
    optKey "cascade" a.cascade .str ++
    optKey "isStandard" a.is_standard .bool ++
    optKey "isRegistered" a.is_registered .bool)

def customAttributeParsedToJson (p : CustomAttributeParsed) : Json :=
  .obj [("name", .str p.name), ("arguments", .arr (p.arguments.map attrArgValueToJson))]

def customAttributeToJson (c : CustomAttribute) : Json :=
  .obj ([("content", .str c.content), ("raw", .str c.raw)] ++
    optKey "parsed" c.parsed customAttributeParsedToJson)

def enumValueToJson (v : EnumValue) : Json :=
  .obj ([("name", .str v.name)] ++
    optKey "description" v.description .str ++
    optKey "type" v.value_type .str ++
    optKey "value" v.value id)

def lookupDefToJson (l : LookupDef) : Json := .obj [("path", .str l.path)]

def rollupDefToJson (r : RollupDef) : Json :=
  .obj ([("target", .str r.target), ("fk", .str r.fk), ("aggregate", .str r.aggregate)] ++
    optKey "field" r.field .str ++
    optKey "where" r.where_clause .str)

def computedDefToJson (c : ComputedDef) : Json :=
  .obj ([("expression", .str c.expression)] ++ optKey "platform" c.platform .str)

/-- The serialized keys of a FieldNode, shared by `fieldNodeToJson`: the
always-present keys interleaved with the present optional keys, in the
declaration order of types.rs `FieldNode`.  Note that only
`arrayItemNullable` (and the rename `field_type` → `type`) are camelCase;
the remaining optional keys serialize under their Rust snake_case names. -/
def fieldNodeToJson : FieldNode → Json
  | .mk d sub loc =>
    .obj ([("name", .str d.name)] ++
      optKey "label" d.label .str ++
      optKey "type" d.field_type .str ++
      optKey "params" d.params (fun xs => .arr (xs.map paramValueToJson)) ++
      optKey "generic_params" d.generic_params (fun xs => .arr (xs.map .str)) ++
      [("nullable", .bool d.nullable), ("array", .bool d.array),
       ("arrayItemNullable", .bool d.array_item_nullable),
       ("kind", fieldKindToJson d.kind)] ++
      optKey "default_value" d.default_value .str ++
      optKey "default_value_type" d.default_value_type defaultValueTypeToJson ++
      optKey "description" d.description .str ++
      [("attributes", .arr (d.attributes.map fieldAttributeToJson))] ++
      optKey "framework_attrs" d.framework_attrs
        (fun xs => .arr (xs.map customAttributeToJson)) ++
      optKey "lookup" d.lookup lookupDefToJson ++
      optKey "rollup" d.rollup rollupDefToJson ++
      optKey "computed" d.computed computedDefToJson ++
      optKey "enum_values" d.enum_values (fun xs => .arr (xs.map enumValueToJson)) ++
      (match sub with
       | some fs => [("fields", Json.arr (fs.attach.map (fun f => fieldNodeToJson f.1)))]
       | none => []) ++
      [("loc", sourceLocationToJson loc)])
  termination_by f => sizeOf f
  decreasing_by
    simp_wf
    have := List.sizeOf_lt_of_mem f.2
    omega

def modelTypeToJson : ModelType → Json
  | .model => .str "model"
  | .enum => .str "enum"
  | .interface => .str "interface"
  | .view => .str "view"

def joinDefToJson (j : JoinDef) : Json :=
  .obj [("model", .str j.model), ("on", .str j.on_)]

def viewSourceDefToJson (v : ViewSourceDef) : Json :=
  .obj (optKey "from" v.from_ .str ++
    optKey "joins" v.joins (fun xs => .arr (xs.map joinDefToJson)) ++
    optKey "where" v.where_clause .str ++
    optKey "order_by" v.order_by .str ++
    optKey "group_by" v.group_by (fun xs => .arr (xs.map .str)) ++
    optKey "raw_sql" v.raw_sql .str ++
    optKey "language_hint" v.language_hint .str)

def refreshDefToJson (r : RefreshDef) : Json :=
  .obj ([("strategy", .str r.strategy)] ++ optKey "interval" r.interval .str)

def sectionsToJson (s : Sections) : Json :=
  .obj ([("indexes", .arr s.indexes), ("relations", .arr s.relations),
         ("behaviors", .arr s.behaviors), ("metadata", .obj s.metadata)] ++
        s.custom)

def modelNodeToJson (m : ModelNode) : Json :=
  .obj ([("name", .str m.name)] ++
    optKey "label" m.label .str ++
    [("type", modelTypeToJson m.model_type), ("source", .str m.source),
     ("line", .num (toString m.line)), ("inherits", .arr (m.inherits.map .str))] ++
    optKey "description" m.description .str ++
    [("attributes", .arr (m.attributes.map fieldAttributeToJson)),
     ("fields", .arr (m.fields.map fieldNodeToJson)),
     ("sections", sectionsToJson m.sections)] ++
    optKey "materialized" m.materialized .bool ++
    optKey "source_def" m.source_def viewSourceDefToJson ++
    optKey "refresh" m.refresh refreshDefToJson ++
    [("loc", sourceLocationToJson m.loc)])

def enumNodeToJson (e : EnumNode) : Json :=
  .obj ([("name", .str e.name)] ++
    optKey "label" e.label .str ++
    [("type", modelTypeToJson e.enum_type), ("source", .str e.source),
     ("line", .num (toString e.line)), ("inherits", .arr (e.inherits.map .str))] ++
    optKey "description" e.description .str ++
    [("values", .arr (e.values.map enumValueToJson)),
     ("loc", sourceLocationToJson e.loc)])

def projectInfoToJson (p : ProjectInfo) : Json :=
  .obj (optKey "name" p.name .str ++ optKey "version" p.version .str)

def diagnosticSeverityToJson : DiagnosticSeverity → Json
  | .error => .str "error"
  | .warning => .str "warning"

def diagnosticToJson (d : Diagnostic) : Json :=
  .obj [("code", .str d.code), ("severity", diagnosticSeverityToJson d.severity),
        ("file", .str d.file), ("line", .num (toString d.line)),
        ("col", .num (toString d.col)), ("message", .str d.message)]

def attributeRegistryEntryToJson (e : AttributeRegistryEntry) : Json :=
  .obj ([("name", .str e.name)] ++
    optKey "description" e.description .str ++
    [("target", .arr (e.target.map .str)), ("type", .str e.attr_type)] ++
    optKey "range" e.range (fun r => .arr [.num r.1, .num r.2]) ++
    [("required", .bool e.required)] ++
    optKey "defaultValue" e.default_value attrArgValueToJson)

/-- types.rs `M3lAst` serialization: the top-level keys are always present,
with `parserVersion` / `astVersion` / `attributeRegistry` renamed to
camelCase. -/
def astToJson (a : M3lAst) : Json :=
  .obj [("parserVersion", .str a.parser_version),
        ("astVersion", .str a.ast_version),
        ("project", projectInfoToJson a.project),
        ("sources", .arr (a.sources.map .str)),
        ("models", .arr (a.models.map modelNodeToJson)),
        ("enums", .arr (a.enums.map enumNodeToJson)),
        ("interfaces", .arr (a.interfaces.map modelNodeToJson)),
        ("views", .arr (a.views.map modelNodeToJson)),
        ("attributeRegistry", .arr (a.attribute_registry.map attributeRegistryEntryToJson)),
        ("errors", .arr (a.errors.map diagnosticToJson)),
        ("warnings", .arr (a.warnings.map diagnosticToJson))]

/-- The keys of a serialized JSON object (empty for non-objects). -/
def objKeys : Json → List String
  | .obj kvs => kvs.map (·.1)
  | _ => []

end M3l

namespace M3l

-- ---------------------------------------------------------------------------
-- Derived predicates and fixtures used by the verification theorems
-- ---------------------------------------------------------------------------

/-- An attribute whose `isStandard` / `isRegistered` flags are never
`Some(false)` (they are `None` or `Some(true)`). -/
def attrOkB (a : FieldAttribute) : Bool :=
  a.is_standard ≠ some false && a.is_registered ≠ some false

/-- Every attribute of a field node (including attributes of nested
sub-fields, recursively) satisfies `attrOkB`. -/
def fieldOkB : FieldNode → Bool
  | .mk d sub _ =>
    d.attributes.all attrOkB &&
    (match sub with
     | some fs => fs.attach.all (fun g => fieldOkB g.1)
     | none => true)
  termination_by f => sizeOf f
  decreasing_by
    simp_wf
    have := List.sizeOf_lt_of_mem g.2
    omega

/-- Every attribute of a model node (its own attribute list and all its
fields) satisfies `attrOkB`. -/
def modelOkB (m : ModelNode) : Bool :=
  m.attributes.all attrOkB && m.fields.all fieldOkB

/-- `modelOkB` for the element currently under construction. -/
def elementOkB : CurrentElement → Bool
  | .modelE m => modelOkB m
  | _ => true

/-- The parser-state invariant: all finished models / interfaces / views and
the current element satisfy `modelOkB`. -/
def stateOkB (s : ParserState) : Bool :=
  s.models.all modelOkB && s.interfaces.all modelOkB && s.views.all modelOkB &&
  elementOkB s.current_element

/-- The `ParsedFile` invariant: all models, interfaces and views satisfy
`modelOkB`. -/
def fileOkB (f : ParsedFile) : Bool :=
  f.models.all modelOkB && f.interfaces.all modelOkB && f.views.all modelOkB

/-- The name of an optional serialized key: present for `some`, absent for
`none`. -/
def optName (name : String) (v : Option α) : List String :=
  match v with
  | some _ => [name]
  | none => []

/-- The exact key list of a serialized field node, as types.rs declares it:
always-present keys `name`, `nullable`, `array`, `arrayItemNullable`,
`kind`, `attributes`, `loc`; optional keys present exactly when their value
is set, under the names `label`, `type`, `params`, `generic_params`,
`default_value`, `default_value_type`, `description`, `framework_attrs`,
`lookup`, `rollup`, `computed`, `enum_values`, `fields`. -/
def expectedFieldKeys (f : FieldNode) : List String :=
  ["name"] ++
  optName "label" f.data.label ++
  optName "type" f.data.field_type ++
  optName "params" f.data.params ++
  optName "generic_params" f.data.generic_params ++
  ["nullable", "array", "arrayItemNullable", "kind"] ++
  optName "default_value" f.data.default_value ++
  optName "default_value_type" f.data.default_value_type ++
  optName "description" f.data.description ++
  ["attributes"] ++
  optName "framework_attrs" f.data.framework_attrs ++
  optName "lookup" f.data.lookup ++
  optName "rollup" f.data.rollup ++
  optName "computed" f.data.computed ++
  optName "enum_values" f.data.enum_values ++
  optName "fields" f.fields ++
  ["loc"]

/-- A parsed file holding exactly one plain model (no fields, no inherits),
used to exercise the resolver's duplicate-name bookkeeping. -/
def singleModelFile (src ns name : String) (line : Nat) : ParsedFile :=
  { source := src
    namespace_ := some ns
    models := [{ name := name, label := none, model_type := .model, source := src,
                 line := line, inherits := [], description := none, attributes := [],
                 fields := [], sections := {}, materialized := none, source_def := none,
                 refresh := none, loc := { file := src, line := line, col := 1 } }]
    enums := []
    interfaces := []
    views := []
    attribute_registry := []
    imports := [] }

/-- A plain stored string field with the given attribute list. -/
def simpleField (name : String) (file : String) (line : Nat)
    (attrs : List FieldAttribute) : FieldNode :=
  .mk { name := name, label := none, field_type := some "string", params := none,
        generic_params := none, nullable := false, array := false,
        array_item_nullable := false, kind := .stored, default_value := none,
        default_value_type := none, description := none, attributes := attrs,
        framework_attrs := none, lookup := none, rollup := none, computed := none,
        enum_values := none }
      none { file := file, line := line, col := 1 }

/-- A model with the given type, inherits and field list and no attributes. -/
def simpleModel (name : String) (mt : ModelType) (src : String) (line : Nat)
    (inherits : List String) (fields : List FieldNode) : ModelNode :=
  { name := name, label := none, model_type := mt, source := src, line := line,
    inherits := inherits, description := none, attributes := [], fields := fields,
    sections := {}, materialized := none, source_def := none, refresh := none,
    loc := { file := src, line := line, col := 1 } }

/-- The `@override` attribute as the parser produces it. -/
def overrideAttr : FieldAttribute :=
  { name := "override", args := none, cascade := none, is_standard := some true,
    is_registered := none }

/-- Fixture: the child's own `id` field carrying `@override`. -/
def c6OwnField : FieldNode := simpleField "id" "c.m3l.md" 3 [overrideAttr]

/-- Fixture: the parent interface's `id` field. -/
def c6BaseField : FieldNode := simpleField "id" "b.m3l.md" 2 []

/-- Fixture: a child model that inherits `Base` and overrides `id`. -/
def c6Child : ModelNode := simpleModel "Child" .model "c.m3l.md" 1 ["Base"] [c6OwnField]

/-- Fixture: the parent interface `Base` defining `id`. -/
def c6Base : ModelNode := simpleModel "Base" .interface "b.m3l.md" 1 [] [c6BaseField]

/-- Fixture: the parent interface's `created_at` field. -/
def c7BaseField : FieldNode := simpleField "created_at" "b7.m3l.md" 2 []

/-- Fixture: a child model inheriting `Base7` with one own field. -/
def c7Child : ModelNode :=
  simpleModel "Child7" .model "c7.m3l.md" 1 ["Base7"] [simpleField "name" "c7.m3l.md" 2 []]

/-- Fixture: the parent interface `Base7`. -/
def c7Base : ModelNode := simpleModel "Base7" .interface "b7.m3l.md" 1 [] [c7BaseField]

end M3l

namespace M3l

theorem all_attach (p : α → Bool) (l : List α) :
    (l.attach.all fun g => p g.1) = l.all p := by
  rcases h : l.all p with _ | _
  · rw [List.all_eq_false] at h
    obtain ⟨x, hx, hpx⟩ := h
    rw [List.all_eq_false]
    exact ⟨⟨x, hx⟩, List.mem_attach _ _, hpx⟩
  · rw [List.all_eq_true] at h
    rw [List.all_eq_true]
    intro g _
    exact h g.1 g.2

theorem fieldOkB_mk (d : FieldData) (sub : Option (List FieldNode)) (loc : SourceLocation) :
    fieldOkB (.mk d sub loc) =
      (d.attributes.all attrOkB &&
        (match sub with
         | some fs => fs.all fieldOkB
         | none => true)) := by
  rw [fieldOkB.eq_def]
  cases sub with
  | none => rfl
  | some fs =>
    show (_ && (fs.attach.all fun g => fieldOkB g.1)) = _
    rw [all_attach]

theorem parse_raw_attributes_ok (ras : List RawAttribute) :
    (parse_raw_attributes ras).all attrOkB = true := by
  simp [parse_raw_attributes, List.all_eq_true, attrOkB]

theorem build_field_node_ok (data : TokenData) (token : Token) (file : String)
    (ck : FieldKind) : fieldOkB (build_field_node data token file ck) = true := by
  rw [build_field_node]
  rw [fieldOkB_mk]
  simp [parse_raw_attributes_ok]

theorem fieldOkB_attrs (f : FieldNode) (h : fieldOkB f = true) :
    f.data.attributes.all attrOkB = true := by
  rcases f with ⟨d, sub, loc⟩
  rw [fieldOkB_mk] at h
  simp only [Bool.and_eq_true] at h
  exact h.1

theorem fieldOkB_sub (f : FieldNode) (h : fieldOkB f = true) :
    (f.fields.getD []).all fieldOkB = true := by
  rcases f with ⟨d, sub, loc⟩
  rw [fieldOkB_mk] at h
  simp only [Bool.and_eq_true] at h
  have h2 := h.2
  cases sub with
  | none => rfl
  | some fs => exact h2

theorem fieldOkB_of_parts (d : FieldData) (sub : Option (List FieldNode))
    (loc : SourceLocation) (h1 : d.attributes.all attrOkB = true)
    (h2 : (sub.getD []).all fieldOkB = true) :
    fieldOkB (.mk d sub loc) = true := by
  rw [fieldOkB_mk]
  rw [Bool.and_eq_true]
  refine ⟨h1, ?_⟩
  cases sub with
  | none => rfl
  | some fs => exact h2

theorem fieldOkB_withData (f : FieldNode) (g : FieldData → FieldData)
    (hok : fieldOkB f = true)
    (hattrs : ((g f.data).attributes).all attrOkB = true) :
    fieldOkB (f.withData g) = true := by
  rcases hf : f with ⟨d, sub, loc⟩
  rw [FieldNode.withData]
  refine fieldOkB_of_parts _ _ _ ?_ ?_
  · rw [← hf]; exact hattrs
  · rw [show (FieldNode.mk d sub loc).fields = sub from rfl]
    have := fieldOkB_sub f hok
    rw [hf] at this
    exact this

theorem fieldOkB_withData_same (f : FieldNode) (g : FieldData → FieldData)
    (hok : fieldOkB f = true)
    (h : (g f.data).attributes = f.data.attributes) :
    fieldOkB (f.withData g) = true :=
  fieldOkB_withData f g hok (by rw [h]; exact fieldOkB_attrs f hok)

theorem fieldOkB_withFields_append (f : FieldNode) (c : FieldNode)
    (hf : fieldOkB f = true) (hc : fieldOkB c = true) :
    fieldOkB (f.withFields (some ((f.fields.getD []) ++ [c]))) = true := by
  rcases hfe : f with ⟨d, sub, loc⟩
  rw [FieldNode.withFields]
  refine fieldOkB_of_parts _ _ _ ?_ ?_
  · have := fieldOkB_attrs f hf
    rw [hfe] at this
    exact this
  · have hsub := fieldOkB_sub f hf
    rw [hfe] at hsub
    simp only [Option.getD_some, List.all_append, List.all_cons, List.all_nil,
      Bool.and_eq_true]
    exact ⟨by simpa using hsub, by simpa using hc⟩

theorem apply_extended_attribute_ok (f : FieldNode) (k v : String)
    (hok : fieldOkB f = true) :
    fieldOkB (apply_extended_attribute f k v) = true := by
  rw [apply_extended_attribute]
  split
  · exact fieldOkB_withData_same f _ hok rfl
  · split
    · exact fieldOkB_withData_same f _ hok rfl
    · split
      · refine fieldOkB_withData f _ hok ?_
        simp only [List.all_append]
        rw [Bool.and_eq_true]
        refine ⟨fieldOkB_attrs f hok, by simp [attrOkB]⟩
      · refine fieldOkB_withData f _ hok ?_
        simp only [List.all_append]
        rw [Bool.and_eq_true]
        refine ⟨fieldOkB_attrs f hok, ?_⟩
        simp only [List.all_cons, List.all_nil, Bool.and_eq_true, attrOkB]
        refine ⟨⟨?_, by simp⟩, trivial⟩
        split <;> simp

theorem all_set {p : α → Bool} (l : List α) (i : Nat) (x : α)
    (hl : l.all p = true) (hx : p x = true) : (l.set i x).all p = true := by
  rw [List.all_eq_true] at hl ⊢
  intro y hy
  rcases List.mem_or_eq_of_mem_set hy with h | h
  · exact hl y h
  · rw [h]; exact hx

theorem tag_attrs_ok (names : List String) (attrs : List FieldAttribute)
    (h : attrs.all attrOkB = true) : (tag_attrs names attrs).all attrOkB = true := by
  rw [tag_attrs]
  rw [List.all_eq_true] at h ⊢
  intro a ha
  rw [List.mem_map] at ha
  obtain ⟨b, hb, hba⟩ := ha
  have hbok := h b hb
  subst hba
  split
  · simp only [attrOkB] at hbok ⊢
    simp only [Bool.and_eq_true] at hbok ⊢
    exact ⟨hbok.1, by simp⟩
  · exact hbok

theorem handle_namespace_ok (t : Token) (s : ParserState)
    (h : stateOkB s = true) : stateOkB (handle_namespace t s) = true := by
  rw [handle_namespace]
  split <;> [skip; exact h]
  rw [stateOkB] at h ⊢
  exact h

theorem finalize_attr_def_ok (s : ParserState)
    (h : stateOkB s = true) : stateOkB (finalize_attr_def s) = true := by
  rw [finalize_attr_def]
  split
  · exact h
  · rw [stateOkB] at h ⊢
    exact h

theorem finalize_element_ok (s : ParserState)
    (h : stateOkB s = true) : stateOkB (finalize_element s) = true := by
  rw [finalize_element]
  have h1 := finalize_attr_def_ok s h
  set s1 := finalize_attr_def s with hs1
  rw [stateOkB] at h1
  simp only [Bool.and_eq_true] at h1
  obtain ⟨⟨⟨hm, hi⟩, hv⟩, he⟩ := h1
  split
  · rw [stateOkB]
    simp only [Bool.and_eq_true]
    exact ⟨⟨⟨hm, hi⟩, hv⟩, rfl⟩
  case _ model heq =>
    rw [heq] at he
    rw [elementOkB] at he
    split <;>
      (rw [stateOkB]; simp only [Bool.and_eq_true, List.all_append, List.all_cons,
        List.all_nil]; exact ⟨⟨⟨by simp [hm, he], by simp [hi, he]⟩, by simp [hv, he]⟩, rfl⟩)
  · rw [stateOkB]
    simp only [Bool.and_eq_true]
    exact ⟨⟨⟨hm, hi⟩, hv⟩, he⟩

theorem stateOkB_parts (s : ParserState)
    (hm : s.models.all modelOkB = true) (hi : s.interfaces.all modelOkB = true)
    (hv : s.views.all modelOkB = true) (he : elementOkB s.current_element = true) :
    stateOkB s = true := by
  rw [stateOkB]
  simp only [Bool.and_eq_true]
  exact ⟨⟨⟨hm, hi⟩, hv⟩, he⟩

theorem stateOkB_models (s : ParserState) (h : stateOkB s = true) :
    s.models.all modelOkB = true := by
  rw [stateOkB] at h; simp only [Bool.and_eq_true] at h; exact h.1.1.1

theorem stateOkB_interfaces (s : ParserState) (h : stateOkB s = true) :
    s.interfaces.all modelOkB = true := by
  rw [stateOkB] at h; simp only [Bool.and_eq_true] at h; exact h.1.1.2

theorem stateOkB_views (s : ParserState) (h : stateOkB s = true) :
    s.views.all modelOkB = true := by
  rw [stateOkB] at h; simp only [Bool.and_eq_true] at h; exact h.1.2

theorem stateOkB_element (s : ParserState) (h : stateOkB s = true) :
    elementOkB s.current_element = true := by
  rw [stateOkB] at h; simp only [Bool.and_eq_true] at h; exact h.2

theorem handle_model_start_ok (t : Token) (s : ParserState)
    (h : stateOkB s = true) : stateOkB (handle_model_start t s) = true := by
  rw [handle_model_start]
  have h1 := finalize_element_ok s h
  refine stateOkB_parts _ (stateOkB_models (finalize_element s) h1) (stateOkB_interfaces (finalize_element s) h1)
    (stateOkB_views (finalize_element s) h1) ?_
  rw [elementOkB, modelOkB]
  simp [parse_raw_attributes_ok]

theorem handle_enum_start_ok (t : Token) (s : ParserState)
    (h : stateOkB s = true) : stateOkB (handle_enum_start t s) = true := by
  rw [handle_enum_start]
  have h1 := finalize_element_ok s h
  exact stateOkB_parts _ (stateOkB_models (finalize_element s) h1) (stateOkB_interfaces (finalize_element s) h1)
    (stateOkB_views (finalize_element s) h1) rfl

theorem handle_view_start_ok (t : Token) (s : ParserState)
    (h : stateOkB s = true) : stateOkB (handle_view_start t s) = true := by
  rw [handle_view_start]
  have h1 := finalize_element_ok s h
  exact stateOkB_parts _ (stateOkB_models (finalize_element s) h1) (stateOkB_interfaces (finalize_element s) h1)
    (stateOkB_views (finalize_element s) h1) rfl

theorem handle_attribute_def_start_ok (t : Token) (s : ParserState)
    (h : stateOkB s = true) : stateOkB (handle_attribute_def_start t s) = true := by
  rw [handle_attribute_def_start]
  have h1 := finalize_element_ok s h
  exact stateOkB_parts _ (stateOkB_models (finalize_element s) h1) (stateOkB_interfaces (finalize_element s) h1)
    (stateOkB_views (finalize_element s) h1) (stateOkB_element (finalize_element s) h1)

theorem modelOkB_parts (m : ModelNode) (h1 : m.attributes.all attrOkB = true)
    (h2 : m.fields.all fieldOkB = true) : modelOkB m = true := by
  rw [modelOkB]; simp [h1, h2]

theorem modelOkB_attrs (m : ModelNode) (h : modelOkB m = true) :
    m.attributes.all attrOkB = true := by
  rw [modelOkB] at h; exact (by simp only [Bool.and_eq_true] at h; exact h.1)

theorem modelOkB_fields (m : ModelNode) (h : modelOkB m = true) :
    m.fields.all fieldOkB = true := by
  rw [modelOkB] at h; exact (by simp only [Bool.and_eq_true] at h; exact h.2)

theorem handle_section_ok (t : Token) (s : ParserState)
    (h : stateOkB s = true) : stateOkB (handle_section t s) = true := by
  have hm := stateOkB_models s h
  have hi := stateOkB_interfaces s h
  have hv := stateOkB_views s h
  have he := stateOkB_element s h
  rw [handle_section]
  repeat' split
  all_goals (try dsimp only)
  all_goals (repeat' split)
  all_goals
    first
      | exact h
      | exact stateOkB_parts _ hm hi hv he
      | (refine stateOkB_parts _ hm hi hv ?_
         simp_all [elementOkB, modelOkB])

theorem handle_directive_ok (data : TokenData) (m : ModelNode) (t : Token)
    (file : String) (h : modelOkB m = true) :
    modelOkB (handle_directive data m t file) = true := by
  rw [handle_directive]
  repeat' split
  all_goals (try dsimp only)
  all_goals (repeat' split)
  all_goals
    first
      | exact h
      | exact modelOkB_parts _ (modelOkB_attrs m h) (modelOkB_fields m h)

theorem handle_section_item_ok (data : TokenData) (m : ModelNode) (t : Token)
    (file : String) (sectionName : String) (ck : FieldKind) (sdd : Bool)
    (lfi : Option Nat) (h : modelOkB m = true) :
    modelOkB (handle_section_item data m t file sectionName ck sdd lfi).1 = true := by
  rw [handle_section_item]
  repeat' split
  all_goals (try dsimp only)
  all_goals (repeat' split)
  all_goals
    first
      | exact h
      | exact modelOkB_parts _ (modelOkB_attrs m h) (modelOkB_fields m h)
      | (refine modelOkB_parts _ (modelOkB_attrs m h) ?_
         simp only [List.all_append, List.all_cons, List.all_nil, Bool.and_eq_true]
         exact ⟨modelOkB_fields m h, by simp [build_field_node_ok]⟩)

theorem handle_field_ok (t : Token) (s : ParserState)
    (h : stateOkB s = true) : stateOkB (handle_field t s) = true := by
  have hm := stateOkB_models s h
  have hi := stateOkB_interfaces s h
  have hv := stateOkB_views s h
  have he := stateOkB_element s h
  rw [handle_field]
  repeat' split
  all_goals (try dsimp only)
  all_goals (repeat' split)
  all_goals
    first
      | exact h
      | exact stateOkB_parts _ hm hi hv he
      | (refine stateOkB_parts _ hm hi hv ?_
         simp_all only [elementOkB] <;>
         first
           | (exact handle_directive_ok _ _ _ _ he)
           | (exact handle_section_item_ok _ _ _ _ _ _ _ _ he)
           | (rename_i heq
              replace heq := congrArg Prod.fst heq
              simp only at heq
              rw [← heq]
              exact handle_section_item_ok _ _ _ _ _ _ _ _ he)
           | (have hea := modelOkB_attrs _ he
              have hef := modelOkB_fields _ he
              refine modelOkB_parts _ hea ?_
              simp only [List.all_append, List.all_cons, List.all_nil, Bool.and_eq_true]
              exact ⟨hef, by simp [build_field_node_ok]⟩))

theorem extended_ok (t : Token) (s : ParserState) (fld : FieldNode) (idx : Nat)
    (m : ModelNode) (st : ParserState) (h : stateOkB s = true)
    (hmo : modelOkB m = true) (hf : fieldOkB fld = true)
    (hres : handle_nested_item.extended t s fld idx m = some st) :
    stateOkB st = true := by
  rw [handle_nested_item.extended] at hres
  split at hres
  · rw [Option.some_inj] at hres
    subst hres
    refine stateOkB_parts _ (stateOkB_models s h) (stateOkB_interfaces s h)
      (stateOkB_views s h) ?_
    rw [elementOkB]
    refine modelOkB_parts _ (modelOkB_attrs m hmo) ?_
    exact all_set _ _ _ (modelOkB_fields m hmo)
      (apply_extended_attribute_ok fld _ _ hf)
  · rw [Option.some_inj] at hres
    subst hres
    exact h

theorem objectOrExtended_ok (t : Token) (s : ParserState) (fld : FieldNode) (idx : Nat)
    (m : ModelNode) (st : ParserState) (h : stateOkB s = true)
    (hmo : modelOkB m = true) (hf : fieldOkB fld = true)
    (hres : handle_nested_item.objectOrExtended t s fld idx m = some st) :
    stateOkB st = true := by
  rw [handle_nested_item.objectOrExtended] at hres
  split at hres
  · split at hres
    · simp only [pure] at hres
      split at hres
      · simp only [Option.some_inj] at hres
        subst hres
        refine stateOkB_parts _ (stateOkB_models s h) (stateOkB_interfaces s h)
          (stateOkB_views s h) ?_
        rw [elementOkB]
        refine modelOkB_parts _ (modelOkB_attrs m hmo) ?_
        refine all_set _ _ _ (modelOkB_fields m hmo) ?_
        exact fieldOkB_withFields_append fld _ hf (build_field_node_ok _ _ _ _)
      · exact extended_ok t s fld idx m st h hmo hf hres
    · exact extended_ok t s fld idx m st h hmo hf hres
  · exact extended_ok t s fld idx m st h hmo hf hres

theorem fallThrough_ok (t : Token) (s : ParserState) (fld : FieldNode) (idx : Nat)
    (st : ParserState) (h : stateOkB s = true) (hf : fieldOkB fld = true)
    (hres : handle_nested_item.fallThrough t s fld idx = some st) :
    stateOkB st = true := by
  rw [handle_nested_item.fallThrough] at hres
  simp only [bind, Option.bind] at hres
  split at hres
  case h_2 => exact absurd hres (by simp)
  case h_1 m heq =>
    have he := stateOkB_element s h
    rw [heq] at he
    have hmo : modelOkB m = true := he
    split at hres
    · split at hres
      · split at hres
        · simp only [pure, Option.some_inj] at hres
          subst hres
          refine stateOkB_parts _ (stateOkB_models s h) (stateOkB_interfaces s h)
            (stateOkB_views s h) ?_
          rw [elementOkB]
          refine modelOkB_parts _ (modelOkB_attrs m hmo) ?_
          refine all_set _ _ _ (modelOkB_fields m hmo) ?_
          refine fieldOkB_withData _ _ ?_ ?_
          · split
            · exact fieldOkB_withData_same fld _ hf rfl
            · exact hf
          · split
            · exact fieldOkB_attrs _ (fieldOkB_withData_same fld _ hf rfl)
            · exact fieldOkB_attrs fld hf
        · exact objectOrExtended_ok t s fld idx m st h hmo hf hres
      · exact objectOrExtended_ok t s fld idx m st h hmo hf hres
    · exact objectOrExtended_ok t s fld idx m st h hmo hf hres

theorem handle_nested_item_ok (t : Token) (s : ParserState)
    (h : stateOkB s = true) : stateOkB (handle_nested_item t s) = true := by
  have hm := stateOkB_models s h
  have hi := stateOkB_interfaces s h
  have hv := stateOkB_views s h
  have he := stateOkB_element s h
  rw [handle_nested_item]
  split
  · exact h
  · split
    · exact stateOkB_parts _ hm hi hv rfl
    · exact h
  · rename_i model heq
    rw [heq] at he
    have hmo : modelOkB model = true := he
    have hok : modelOkB model = true → ∀ i (hlt : i < model.fields.length),
        fieldOkB model.fields[i] = true := by
      intro hmo2 i hlt
      exact List.all_eq_true.mp (modelOkB_fields model hmo2) _ (List.getElem_mem hlt)
    split
    · split
      · exact stateOkB_parts _ hm hi hv
          (modelOkB_parts _ (modelOkB_attrs model hmo) (modelOkB_fields model hmo))
      · exact h
    · split
      · split
        · exact stateOkB_parts _ hm hi hv
            (modelOkB_parts _ (modelOkB_attrs model hmo) (modelOkB_fields model hmo))
        · exact h
      · dsimp only
        split
        case _ st heq2 =>
          split at heq2
          case h_2 => exact absurd heq2 (by simp)
          case h_1 fi hlfi =>
            split at heq2
            case isFalse => exact absurd heq2 (by simp)
            case isTrue hlt =>
              have hf := hok hmo fi hlt
              split at heq2
              · simp only [Option.some_inj] at heq2
                subst heq2
                refine stateOkB_parts _ hm hi hv ?_
                rw [elementOkB]
                refine modelOkB_parts _ (modelOkB_attrs model hmo) ?_
                refine all_set _ _ _ (modelOkB_fields model hmo) ?_
                split
                · exact fieldOkB_withData_same _ _ hf rfl
                · exact hf
              · split at heq2
                · split at heq2
                  · simp only [Option.some_inj] at heq2
                    subst heq2
                    refine stateOkB_parts _ hm hi hv ?_
                    rw [elementOkB]
                    refine modelOkB_parts _ (modelOkB_attrs model hmo) ?_
                    refine all_set _ _ _ (modelOkB_fields model hmo) ?_
                    exact fieldOkB_withData_same _ _ hf rfl
                  · exact fallThrough_ok t s _ fi _ h hf heq2
                · exact fallThrough_ok t s _ fi _ h hf heq2
        case _ heq2 =>
          split
          · split
            · split
              · exact stateOkB_parts _ hm hi hv
                  (modelOkB_parts _ (modelOkB_attrs model hmo) (modelOkB_fields model hmo))
              · exact h
            · exact h
          · exact h

theorem handle_blockquote_ok (t : Token) (s : ParserState)
    (h : stateOkB s = true) : stateOkB (handle_blockquote t s) = true := by
  have hm := stateOkB_models s h
  have hi := stateOkB_interfaces s h
  have hv := stateOkB_views s h
  have he := stateOkB_element s h
  rw [handle_blockquote]
  split
  · exact stateOkB_parts _ hm hi hv he
  · split
    · exact h
    · split <;> exact stateOkB_parts _ hm hi hv rfl
    case _ model heq =>
      rw [heq] at he
      have hmo : modelOkB model = true := he
      have hml : ∀ txt st2, stateOkB st2 = true →
          stateOkB (handle_blockquote.modelLevel model txt st2) = true := by
        intro txt st2 h2
        rw [handle_blockquote.modelLevel]
        split <;>
          exact stateOkB_parts _ (stateOkB_models st2 h2) (stateOkB_interfaces st2 h2)
            (stateOkB_views st2 h2)
            (modelOkB_parts _ (modelOkB_attrs model hmo) (modelOkB_fields model hmo))
      split
      · split
        case isTrue idx hlfi hlt =>
          refine stateOkB_parts _ hm hi hv ?_
          rw [elementOkB]
          refine modelOkB_parts _ (modelOkB_attrs model hmo) ?_
          refine all_set _ _ _ (modelOkB_fields model hmo) ?_
          have hf : fieldOkB model.fields[idx]! = true := by
            rw [getElem!_pos model.fields idx hlt]
            exact List.all_eq_true.mp (modelOkB_fields model hmo) _ (List.getElem_mem hlt)
          refine fieldOkB_withData _ _ ?_ ?_
          · exact hf
          · split <;> exact fieldOkB_attrs _ hf
        case isFalse => exact hml _ _ h
      · exact hml _ _ h

theorem handle_text_ok (t : Token) (s : ParserState)
    (h : stateOkB s = true) : stateOkB (handle_text t s) = true := by
  have hm := stateOkB_models s h
  have hi := stateOkB_interfaces s h
  have hv := stateOkB_views s h
  have he := stateOkB_element s h
  rw [handle_text]
  repeat' split
  all_goals (try dsimp only)
  all_goals (repeat' split)
  all_goals
    first
      | exact h
      | exact stateOkB_parts _ hm hi hv he
      | (refine stateOkB_parts _ hm hi hv ?_
         simp_all only [elementOkB] <;>
           exact modelOkB_parts _ (modelOkB_attrs _ he) (modelOkB_fields _ he))

theorem process_token_ok (t : Token) (s : ParserState)
    (h : stateOkB s = true) : stateOkB (process_token t s) = true := by
  rw [process_token]
  split
  all_goals
    first
      | exact h
      | exact handle_namespace_ok t s h
      | exact handle_model_start_ok t s h
      | exact handle_enum_start_ok t s h
      | exact handle_view_start_ok t s h
      | exact handle_attribute_def_start_ok t s h
      | exact handle_section_ok t s h
      | exact handle_field_ok t s h
      | exact handle_nested_item_ok t s h
      | exact handle_blockquote_ok t s h
      | exact handle_text_ok t s h

theorem parse_tokens_ok (tokens : List Token) (file : String) :
    fileOkB (parse_tokens tokens file) = true := by
  rw [parse_tokens]
  have hfold : ∀ (ts : List Token) (s : ParserState), stateOkB s = true →
      stateOkB (ts.foldl (fun st tk => process_token tk st) s) = true := by
    intro ts
    induction ts with
    | nil => intro s hs; exact hs
    | cons tk rest ih =>
      intro s hs
      rw [List.foldl_cons]
      exact ih _ (process_token_ok tk s hs)
  have h0 : stateOkB (tokens.foldl (fun st tk => process_token tk st)
      { file := file, namespace_ := none, current_element := .noneE,
        current_section := none, current_kind := .stored, last_field_idx := none,
        models := [], enums := [], interfaces := [], views := [],
        attribute_registry := [], current_attr_def := none,
        source_directives_done := false, imports := [] }) = true := by
    apply hfold
    rfl
  have h1 := finalize_element_ok _ h0
  rw [fileOkB]
  simp only [Bool.and_eq_true]
  exact ⟨⟨stateOkB_models _ h1, stateOkB_interfaces _ h1⟩, stateOkB_views _ h1⟩

theorem parse_string_ok (content : String) (file : String) :
    fileOkB (parse_string content file) = true := by
  rw [parse_string]
  exact parse_tokens_ok _ _


-- generic fold-add membership
theorem foldl_add_mem {P : List FieldNode → FieldNode → Bool} (l : List FieldNode)
    (acc : List FieldNode) (f : FieldNode)
    (h : f ∈ l.foldl (fun acc g => if P acc g then acc else acc ++ [g]) acc) :
    f ∈ acc ∨ f ∈ l := by
  induction l generalizing acc with
  | nil => exact Or.inl h
  | cons g rest ih =>
    simp only [List.foldl_cons] at h
    rcases ih _ h with h' | h'
    · by_cases hp : P acc g
      · simp [hp] at h'
        exact Or.inl h'
      · simp [hp] at h'
        rcases h' with h' | h'
        · exact Or.inl h'
        · exact Or.inr (by simp [h'])
    · exact Or.inr (List.mem_cons_of_mem _ h')

/-- Every field `collect_fields` accumulates comes unchanged from some
model's or interface's field list. -/
theorem collect_fields_inherited_mem (fuel : Nat) (ctx : InheritCtx) (name : String)
    (st : InheritSt) (f : FieldNode)
    (h : f ∈ (collect_fields fuel ctx name st).inherited_fields) :
    f ∈ st.inherited_fields ∨
      ∃ p, (p ∈ ctx.all_models ∨ p ∈ ctx.all_interfaces) ∧ f ∈ p.fields := by
  induction fuel generalizing name st with
  | zero => exact Or.inl h
  | succ fuel ih =>
    rw [collect_fields] at h
    by_cases hguard : st.resolved.contains name || st.visiting.contains name
    · simp only [hguard, if_pos] at h
      exact Or.inl h
    · simp only [hguard] at h
      simp only [Bool.false_eq_true, if_false] at h
      set st1 := { st with visiting := hsInsert st.visiting name } with hst1
      have hfold : ∀ (names : List String) (st' : InheritSt),
          f ∈ (names.foldl (fun acc gp => collect_fields fuel ctx gp acc) st').inherited_fields →
          f ∈ st'.inherited_fields ∨
            ∃ p, (p ∈ ctx.all_models ∨ p ∈ ctx.all_interfaces) ∧ f ∈ p.fields := by
        intro names
        induction names with
        | nil => intro st' h'; exact Or.inl h'
        | cons n rest ihn =>
          intro st' h'
          simp only [List.foldl_cons] at h'
          rcases ihn _ h' with h'' | h''
          · exact ih n st' h''
          · exact Or.inr h''
      -- case split on the parent lookup
      rcases hpar : (match hmGet ctx.model_map name with
        | some idx => ctx.all_models[idx]?
        | none =>
          match hmGet ctx.interface_map name with
          | some idx => ctx.all_interfaces[idx]?
          | none => none : Option ModelNode) with _ | parent_model
      · rw [hpar] at h
        simp at h
        exact Or.inl h
      · rw [hpar] at h
        simp only at h
        have hmem : parent_model ∈ ctx.all_models ∨ parent_model ∈ ctx.all_interfaces := by
          rcases hm : hmGet ctx.model_map name with _ | idx
          · rw [hm] at hpar
            rcases hi : hmGet ctx.interface_map name with _ | idx2
            · rw [hi] at hpar; cases hpar
            · rw [hi] at hpar
              exact Or.inr (List.getElem?_mem hpar)
          · rw [hm] at hpar
            exact Or.inl (List.getElem?_mem hpar)
        rcases foldl_add_mem parent_model.fields _ f h with h' | h'
        · rcases hfold _ _ h' with h'' | h''
          · exact Or.inl h''
          · exact Or.inr h''
        · exact Or.inr ⟨parent_model, hmem, h'⟩

theorem resolve_inheritance_ok (i : Nat) (all_models : List ModelNode)
    (mm : List (String × Nat)) (all_interfaces : List ModelNode)
    (im : List (String × Nat)) (an : List (String × (String × String × Nat)))
    (errs : List Diagnostic)
    (hM : all_models.all modelOkB = true) (hI : all_interfaces.all modelOkB = true) :
    ((resolve_inheritance i all_models mm all_interfaces im an errs).1).all modelOkB
      = true := by
  rw [resolve_inheritance]
  split
  · exact hM
  case _ model heqm =>
    split
    · exact hM
    · dsimp only
      split
      · exact hM
      · rw [List.all_eq_true]
        intro m' hm'
        rcases List.mem_or_eq_of_mem_set hm' with hmem | hset
        · exact List.all_eq_true.mp hM m' hmem
        · subst hset
          have hmodel : modelOkB model = true :=
            List.all_eq_true.mp hM model (List.getElem?_mem heqm)
          refine modelOkB_parts _ (modelOkB_attrs model hmodel) ?_
          simp only [List.all_append, Bool.and_eq_true]
          refine ⟨?_, modelOkB_fields model hmodel⟩
          rw [List.all_eq_true]
          intro f hf
          have hf2 := List.mem_of_mem_filter hf
          have hc : f ∈ ([] : List FieldNode) ∨
              ∃ p, (p ∈ all_models ∨ p ∈ all_interfaces) ∧ f ∈ p.fields := by
            have aux : ∀ (names : List String) (st0 : InheritSt),
                f ∈ (names.foldl (fun acc gp =>
                    collect_fields (all_models.length + all_interfaces.length + 2)
                      { model_source := model.source, model_line := model.line,
                        model_name := model.name, all_models := all_models,
                        model_map := mm, all_interfaces := all_interfaces,
                        interface_map := im, all_named := an } gp acc) st0).inherited_fields →
                f ∈ st0.inherited_fields ∨
                  ∃ p, (p ∈ all_models ∨ p ∈ all_interfaces) ∧ f ∈ p.fields := by
              intro names
              induction names with
              | nil => intro st0 h0; exact Or.inl h0
              | cons n rest ihn =>
                intro st0 h0
                rw [List.foldl_cons] at h0
                rcases ihn _ h0 with h1 | h1
                · exact collect_fields_inherited_mem _ _ n st0 f h1
                · exact Or.inr h1
            exact aux model.inherits
              { inherited_fields := [], resolved := [], visiting := [], errors := errs } hf2
          rcases hc with hc | ⟨p, hp, hfp⟩
          · simp at hc
          · have hpok : modelOkB p = true := by
              rcases hp with hp | hp
              · exact List.all_eq_true.mp hM p hp
              · exact List.all_eq_true.mp hI p hp
            exact List.all_eq_true.mp (modelOkB_fields p hpok) f hfp

theorem foldl_append_all {β : Type} (g : β → List ModelNode) (files : List β)
    (acc : List ModelNode) (hacc : acc.all modelOkB = true)
    (hf : ∀ f ∈ files, (g f).all modelOkB = true) :
    (files.foldl (fun a f => a ++ g f) acc).all modelOkB = true := by
  induction files generalizing acc with
  | nil => exact hacc
  | cons f rest ih =>
    rw [List.foldl_cons]
    refine ih _ ?_ (fun x hx => hf x (List.mem_cons_of_mem _ hx))
    simp only [List.all_append, Bool.and_eq_true]
    exact ⟨hacc, hf f (List.mem_cons_self _ _)⟩

theorem inherit_fold_ok (idxs : List Nat) (mm : List (String × Nat))
    (all_interfaces : List ModelNode) (im : List (String × Nat))
    (an : List (String × (String × String × Nat)))
    (acc : List ModelNode × List Diagnostic)
    (hacc : acc.1.all modelOkB = true) (hI : all_interfaces.all modelOkB = true) :
    ((idxs.foldl (fun (a : List ModelNode × List Diagnostic) i =>
        resolve_inheritance i a.1 mm all_interfaces im an a.2) acc).1).all modelOkB
      = true := by
  induction idxs generalizing acc with
  | nil => exact hacc
  | cons i rest ih =>
    rw [List.foldl_cons]
    exact ih _ (resolve_inheritance_ok i acc.1 mm all_interfaces im an acc.2 hacc hI)

theorem tagModel_ok (names : List String) (m : ModelNode) (h : modelOkB m = true) :
    modelOkB { m with
      attributes := tag_attrs names m.attributes
      fields := m.fields.map (fun f =>
        f.withData (fun d => { d with attributes := tag_attrs names d.attributes })) }
      = true := by
  refine modelOkB_parts _ ?_ ?_
  · exact tag_attrs_ok names m.attributes (modelOkB_attrs m h)
  · show (m.fields.map _).all fieldOkB = true
    rw [List.all_eq_true]
    intro f hfm
    rw [List.mem_map] at hfm
    obtain ⟨f0, hf0, hef⟩ := hfm
    subst hef
    have hf0ok := List.all_eq_true.mp (modelOkB_fields m h) f0 hf0
    refine fieldOkB_withData f0 _ hf0ok ?_
    exact tag_attrs_ok names f0.data.attributes (fieldOkB_attrs f0 hf0ok)

theorem tagged_all_ok (names : List String) (ms : List ModelNode)
    (h : ms.all modelOkB = true) :
    (ms.map (fun m => { m with
      attributes := tag_attrs names m.attributes
      fields := m.fields.map (fun f =>
        f.withData (fun d => { d with attributes := tag_attrs names d.attributes })) })).all
        modelOkB = true := by
  rw [List.all_eq_true]
  intro m' hm'
  rw [List.mem_map] at hm'
  obtain ⟨m0, hm0, hem⟩ := hm'
  subst hem
  exact tagModel_ok names m0 (List.all_eq_true.mp h m0 hm0)

theorem fileOkB_models (f : ParsedFile) (h : fileOkB f = true) :
    f.models.all modelOkB = true := by
  rw [fileOkB] at h; simp only [Bool.and_eq_true] at h; exact h.1.1

theorem fileOkB_interfaces (f : ParsedFile) (h : fileOkB f = true) :
    f.interfaces.all modelOkB = true := by
  rw [fileOkB] at h; simp only [Bool.and_eq_true] at h; exact h.1.2

theorem fileOkB_views (f : ParsedFile) (h : fileOkB f = true) :
    f.views.all modelOkB = true := by
  rw [fileOkB] at h; simp only [Bool.and_eq_true] at h; exact h.2

theorem resolve_ok (files : List ParsedFile) (project : Option ProjectInfo)
    (hfiles : ∀ f ∈ files, fileOkB f = true) :
    ((resolve files project).models.all modelOkB &&
     ((resolve files project).interfaces.all modelOkB &&
      (resolve files project).views.all modelOkB)) = true := by
  have hM : (files.foldl (fun acc f => acc ++ f.models) []).all modelOkB = true :=
    foldl_append_all _ files [] rfl (fun f hf => fileOkB_models f (hfiles f hf))
  have hI : (files.foldl (fun acc f => acc ++ f.interfaces) []).all modelOkB = true :=
    foldl_append_all _ files [] rfl (fun f hf => fileOkB_interfaces f (hfiles f hf))
  have hV : (files.foldl (fun acc f => acc ++ f.views) []).all modelOkB = true :=
    foldl_append_all _ files [] rfl (fun f hf => fileOkB_views f (hfiles f hf))
  rw [resolve]
  dsimp only
  split
  · simp only [Bool.and_eq_true]
    refine ⟨?_, ?_, ?_⟩
    · exact inherit_fold_ok _ _ _ _ _ _ hM hI
    · exact hI
    · exact hV
  · simp only [Bool.and_eq_true]
    refine ⟨?_, ?_, ?_⟩
    · exact tagged_all_ok _ _ (inherit_fold_ok _ _ _ _ _ _ hM hI)
    · exact tagged_all_ok _ _ hI
    · exact tagged_all_ok _ _ hV

theorem objKeys_optKey (name : String) (v : Option α) (g : α → Json) :
    (optKey name v g).map Prod.fst = optName name v := by
  cases v <;> rfl

theorem objKeys_fieldNode (f : FieldNode) :
    objKeys (fieldNodeToJson f) = expectedFieldKeys f := by
  rcases f with ⟨d, sub, loc⟩
  rw [fieldNodeToJson.eq_def]
  rw [objKeys, expectedFieldKeys]
  simp only [List.map_append, objKeys_optKey]
  cases sub <;> rfl

theorem objKeys_ast (a : M3lAst) :
    objKeys (astToJson a) =
      ["parserVersion", "astVersion", "project", "sources", "models", "enums",
       "interfaces", "views", "attributeRegistry", "errors", "warnings"] := rfl

/-- C7: resolve_inheritance prepends the (override-filtered) inherited
fields before the model's own fields, leaves every other model untouched at
this index, and every inherited field is literally a member of some
model's or interface's field list - source location included, since the
field value is copied unchanged. -/
theorem c7_inherited_fields_prepended (model_idx : Nat) (all_models : List ModelNode)
    (model_map : List (String × Nat)) (all_interfaces : List ModelNode)
    (interface_map : List (String × Nat))
    (all_named : List (String × (String × String × Nat)))
    (errors : List Diagnostic) (model : ModelNode)
    (h : all_models[model_idx]? = some model) :
    ∃ inherited : List FieldNode,
      (resolve_inheritance model_idx all_models model_map all_interfaces interface_map
          all_named errors).1[model_idx]? =
        some { model with fields := inherited ++ model.fields } ∧
      ∀ f ∈ inherited, ∃ p, (p ∈ all_models ∨ p ∈ all_interfaces) ∧ f ∈ p.fields := by
  unfold resolve_inheritance
  rw [h]
  by_cases hinh : model.inherits.isEmpty
  · refine ⟨[], ?_, by simp⟩
    simp [hinh, h]
  · simp only [hinh, Bool.false_eq_true, if_false]
    set ctx : InheritCtx :=
      { model_source := model.source, model_line := model.line, model_name := model.name,
        all_models := all_models, model_map := model_map,
        all_interfaces := all_interfaces, interface_map := interface_map,
        all_named := all_named } with hctx
    set fuel := all_models.length + all_interfaces.length + 2 with hfuel
    set st := model.inherits.foldl (fun acc parent_name => collect_fields fuel ctx parent_name acc)
      { inherited_fields := [], resolved := [], visiting := [], errors := errors } with hst
    have hmemS : ∀ f ∈ st.inherited_fields,
        ∃ p, (p ∈ all_models ∨ p ∈ all_interfaces) ∧ f ∈ p.fields := by
      intro f hf
      have aux : ∀ (names : List String) (st0 : InheritSt),
          f ∈ (names.foldl (fun acc gp => collect_fields fuel ctx gp acc) st0).inherited_fields →
          f ∈ st0.inherited_fields ∨
            ∃ p, (p ∈ ctx.all_models ∨ p ∈ ctx.all_interfaces) ∧ f ∈ p.fields := by
        intro names
        induction names with
        | nil => intro st0 h0; exact Or.inl h0
        | cons n rest ihn =>
          intro st0 h0
          simp only [List.foldl_cons] at h0
          rcases ihn _ h0 with h1 | h1
          · exact collect_fields_inherited_mem fuel ctx n st0 f h1
          · exact Or.inr h1
      rcases aux model.inherits _ (hst ▸ hf) with h1 | h1
      · simp at h1
      · exact h1
    set filtered := st.inherited_fields.filter
      (fun f => !((model.fields.filter
        (fun g => g.attributes.any (fun a => a.name = "override"))).map FieldNode.name).contains f.name)
      with hfiltered
    by_cases hfe : filtered.isEmpty
    · refine ⟨[], ?_, by simp⟩
      simp only [hfiltered] at hfe
      simp [hfe, h]
    · simp only [hfiltered] at hfe
      simp only [hfe, Bool.false_eq_true, if_false]
      have hlt : model_idx < all_models.length := (List.getElem?_eq_some.mp h).1
      refine ⟨filtered, ?_, ?_⟩
      · rw [hfiltered]
        simp [List.getElem?_set_eq_of_lt _ hlt]
      · intro f hf
        exact hmemS f (List.mem_of_mem_filter hf)

/-- C6: when the child's own field list contains exactly one field named N
and that field carries `@override`, the resolved field list still contains
exactly that one field named N - every inherited field of that name is
subtracted, and the own definition is kept unchanged. -/
theorem c6_override_subtraction (model_idx : Nat) (all_models : List ModelNode)
    (model_map : List (String × Nat)) (all_interfaces : List ModelNode)
    (interface_map : List (String × Nat))
    (all_named : List (String × (String × String × Nat)))
    (errors : List Diagnostic) (model : ModelNode) (N : String) (fld : FieldNode)
    (h : all_models[model_idx]? = some model)
    (hown : model.fields.filter (fun f => f.name = N) = [fld])
    (hover : fld.attributes.any (fun a => a.name = "override"))
    (hanc : ∃ p, (p ∈ all_models ∨ p ∈ all_interfaces) ∧ p.fields.any (fun f => f.name = N)) :
    ((resolve_inheritance model_idx all_models model_map all_interfaces interface_map
        all_named errors).1[model_idx]?).map
      (fun m => m.fields.filter (fun f => f.name = N)) = some [fld] := by
  have hfld : fld ∈ model.fields ∧ fld.name = N := by
    have hm : fld ∈ model.fields.filter (fun f => f.name = N) := by rw [hown]; simp
    have h2 := List.mem_filter.mp hm
    exact ⟨h2.1, by simpa using h2.2⟩
  have hoverN : N ∈ (model.fields.filter
      (fun g => g.attributes.any (fun a => a.name = "override"))).map FieldNode.name := by
    apply List.mem_map.mpr
    exact ⟨fld, List.mem_filter.mpr ⟨hfld.1, by simpa using hover⟩, hfld.2⟩
  unfold resolve_inheritance
  rw [h]
  by_cases hinh : model.inherits.isEmpty
  · simp [hinh, h, hown]
  · simp only [hinh, Bool.false_eq_true, if_false]
    set ctx : InheritCtx :=
      { model_source := model.source, model_line := model.line, model_name := model.name,
        all_models := all_models, model_map := model_map,
        all_interfaces := all_interfaces, interface_map := interface_map,
        all_named := all_named } with hctx
    set fuel := all_models.length + all_interfaces.length + 2 with hfuel
    set st := model.inherits.foldl (fun acc parent_name => collect_fields fuel ctx parent_name acc)
      { inherited_fields := [], resolved := [], visiting := [], errors := errors } with hst
    set filtered := st.inherited_fields.filter
      (fun f => !((model.fields.filter
        (fun g => g.attributes.any (fun a => a.name = "override"))).map FieldNode.name).contains f.name)
      with hfiltered
    have hfilterN : filtered.filter (fun f => f.name = N) = [] := by
      rw [List.filter_eq_nil_iff]
      intro f hf
      have hmem := List.mem_filter.mp (hfiltered ▸ hf)
      intro hname
      have hN : f.name = N := by simpa using hname
      have hcon := hmem.2
      rw [hN] at hcon
      simp at hcon
      obtain ⟨a, ha, han⟩ : ∃ a ∈ fld.attributes, a.name = "override" := by simpa using hover
      exact hcon fld hfld.1 a ha han hfld.2
    by_cases hfe : filtered.isEmpty
    · simp only [hfiltered] at hfe
      simp [hfe, h, hown]
    · simp only [hfiltered] at hfe
      simp only [hfe, Bool.false_eq_true, if_false]
      have hlt : model_idx < all_models.length := (List.getElem?_eq_some.mp h).1
      rw [List.getElem?_set_eq_of_lt _ hlt]
      simp only [Option.map_some']
      rw [List.filter_append, hown, hfilterN]
      simp

theorem c7_inherited_fields_prepended_witness :
    ∃ inherited : List FieldNode,
      (resolve_inheritance 0 [c7Child] [("Child7", 0)] [c7Base] [("Base7", 0)]
          [("Child7", ("model", "c7.m3l.md", 1)), ("Base7", ("interface", "b7.m3l.md", 1))]
          []).1[0]? =
        some { c7Child with fields := inherited ++ c7Child.fields } ∧
      ∀ f ∈ inherited, ∃ p, (p ∈ [c7Child] ∨ p ∈ [c7Base]) ∧ f ∈ p.fields :=
  c7_inherited_fields_prepended 0 [c7Child] [("Child7", 0)] [c7Base] [("Base7", 0)]
    [("Child7", ("model", "c7.m3l.md", 1)), ("Base7", ("interface", "b7.m3l.md", 1))]
    [] c7Child rfl

theorem c6_override_subtraction_witness :
    ((resolve_inheritance 0 [c6Child] [("Child", 0)] [c6Base] [("Base", 0)]
        [("Child", ("model", "c.m3l.md", 1)), ("Base", ("interface", "b.m3l.md", 1))]
        []).1[0]?).map
      (fun m => m.fields.filter (fun f => f.name = "id")) = some [c6OwnField] :=
  c6_override_subtraction 0 [c6Child] [("Child", 0)] [c6Base] [("Base", 0)]
    [("Child", ("model", "c.m3l.md", 1)), ("Base", ("interface", "b.m3l.md", 1))]
    [] c6Child "id" c6OwnField rfl rfl rfl
    ⟨c6Base, Or.inr (List.mem_cons_self _ _), rfl⟩

/-- C1 (amended): for two files with distinct sources and distinct
namespaces both defining a model of the same name, resolve emits exactly
one M3L-E005 duplicate-name diagnostic AND one M3L-E008 cross-namespace
diagnostic, both located on the second occurrence (the spec expected the
E005 to be suppressed; the code emits both). -/
theorem c1_cross_namespace_duplicate (src1 src2 ns1 ns2 name : String) (l1 l2 : Nat)
    (hns : ns1 ≠ ns2) (hsrc : src1 ≠ src2) :
    (resolve [singleModelFile src1 ns1 name l1, singleModelFile src2 ns2 name l2]
        none).errors.map (fun d => (d.code, d.file, d.line)) =
    [("M3L-E005", src2, l2), ("M3L-E008", src2, l2)] := by
  simp [resolve, singleModelFile, check_duplicate, hmGet, hmInsert, hmPush, hmContains,
    resolve_inheritance, check_duplicate_fields, detect_circular_imports, dfs_detect_cycle,
    dedupNs, hsInsert, errDiag, hns, hsrc, Ne.symm hns, Ne.symm hsrc,
    List.range_succ, List.foldl_cons, List.foldl_nil]

theorem c1_cross_namespace_duplicate_witness :
    (resolve [singleModelFile "sales.m3l.md" "sales" "Product" 1,
              singleModelFile "inventory.m3l.md" "inventory" "Product" 2]
        none).errors.map (fun d => (d.code, d.file, d.line)) =
    [("M3L-E005", "inventory.m3l.md", 2), ("M3L-E008", "inventory.m3l.md", 2)] :=
  c1_cross_namespace_duplicate "sales.m3l.md" "inventory.m3l.md" "sales" "inventory"
    "Product" 1 2 (by decide) (by decide)

theorem c1_cross_namespace_duplicate_counterexample :
    ((resolve [parse_string "# Namespace: sales\n## Product\n- id: identifier" "sales.m3l.md",
               parse_string "# Namespace: inventory\n## Product\n- id: identifier" "inventory.m3l.md"]
        none).errors.map (fun d => (d.code, d.file, d.line))) =
    [("M3L-E005", "inventory.m3l.md", 2), ("M3L-E008", "inventory.m3l.md", 2)] := by rfl

/-- C2: the code bug exhibited - a plain (non-`Namespace:`) H1 heading sets
and even overwrites the parsed file's namespace whenever no element is
open, because the lexer turns every H1 into a Namespace token and
handle_namespace never checks the directive flag. -/
theorem c2_plain_h1_sets_namespace :
    (parse_string "# My Data Model\n## User\n- name: string" "test.m3l.md").namespace_ =
      some "My Data Model" ∧
    (parse_string "# Namespace: App\n# Document Title\n## User\n- name: string"
        "doc.m3l.md").namespace_ = some "Document Title" :=
  ⟨rfl, rfl⟩

/-- C3 (amended): the serialized field-node keys are exactly
`expectedFieldKeys` - always-present `name`/`nullable`/`array`/
`arrayItemNullable`/`kind`/`attributes`/`loc`; optional keys omitted when
absent and serialized under `label`, `type`, `params`, `generic_params`,
`default_value`, `default_value_type`, `description`, `framework_attrs`,
`lookup`, `rollup`, `computed`, `enum_values`, `fields` (snake_case, not
the camelCase names the spec lists); and the top-level AST keys are the
camelCase `parserVersion`/`astVersion` etc., never snake_case. -/
theorem c3_field_node_keys :
    (∀ f : FieldNode, objKeys (fieldNodeToJson f) = expectedFieldKeys f) ∧
    (∀ a : M3lAst, objKeys (astToJson a) =
      ["parserVersion", "astVersion", "project", "sources", "models", "enums",
       "interfaces", "views", "attributeRegistry", "errors", "warnings"]) :=
  ⟨fun f => objKeys_fieldNode f, fun a => objKeys_ast a⟩

theorem c3_field_node_keys_counterexample :
    ((resolve [parse_string "## A\n- m: map<string,integer>" "a.m3l.md"] none).models.map
      (fun m => m.fields.map (fun f => objKeys (fieldNodeToJson f)))) =
    [[["name", "type", "generic_params", "nullable", "array", "arrayItemNullable", "kind",
       "attributes", "loc"]]] := by
  simp only [objKeys_fieldNode]
  rfl

/-- C4 (amended): for every field node the parser builds, a `lookup`
detail record forces `kind = lookup`, and the presence of any of the three
detail records forces `kind ≠ stored`; but the records are not mutually
exclusive and need not match `kind` (the counterexample shows rollup and
computed coexisting under `kind = rollup`). -/
theorem c4_kind_detail_invariant (data : TokenData) (token : Token) (file : String)
    (ck : FieldKind) :
    ((build_field_node data token file ck).lookup.isSome →
      (build_field_node data token file ck).kind = FieldKind.lookup) ∧
    (((build_field_node data token file ck).lookup.isSome ∨
      (build_field_node data token file ck).rollup.isSome ∨
      (build_field_node data token file ck).computed.isSome) →
      (build_field_node data token file ck).kind ≠ FieldKind.stored) := by
  unfold build_field_node
  dsimp only [FieldNode.lookup, FieldNode.kind, FieldNode.rollup, FieldNode.computed,
    FieldNode.data]
  rcases hla : (parse_raw_attributes data.attributes).find? (fun a => a.name = "lookup") with _ | la <;>
  rcases hra : (parse_raw_attributes data.attributes).find? (fun a => a.name = "rollup") with _ | ra <;>
  rcases hca : (parse_raw_attributes data.attributes).find? (fun a => a.name = "computed") with _ | ca <;>
  rcases hcra : (parse_raw_attributes data.attributes).find? (fun a => a.name = "computed_raw") with _ | cra <;>
    simp [bfn_lookup, bfn_rollup, bfn_computed, hla, hra, hca, hcra] <;>
    (cases data.code_block <;> simp)

theorem c4_kind_detail_counterexample :
    ((resolve [parse_string "## A\n### Lookup\n- x: string\n- y: integer @rollup(T.fk, count) @computed(\"e\")" "t.m3l.md"]
        none).models.map (fun m => m.fields.map
          (fun f => (f.kind, f.lookup.isSome, f.rollup.isSome, f.computed.isSome)))) =
    [[(FieldKind.lookup, false, false, false), (FieldKind.rollup, false, true, true)]] := by rfl

/-- C5: the lexer's type-modifier decoding maps the six suffix shapes of a
type expression to exactly the specified
(nullable, array, arrayItemNullable) triples. -/
theorem c5_type_modifier_flags :
    ["string", "string?", "string[]", "string[]?", "string?[]", "string?[]?"].map
      (fun s =>
        let d := parse_type_and_attrs s {}
        (d.nullable, d.array, d.array_item_nullable)) =
    [(false, false, false), (true, false, false), (false, true, false),
     (true, true, false), (false, true, true), (true, true, true)] := by rfl

/-- C8: for three files whose imports form the cycle a → b → c → a,
resolve emits exactly one M3L-E003 diagnostic whose message names the
chain `a → b → c → a` in that order. -/
theorem c8_circular_import_chain :
    (resolve [parse_string "@import \"b\"" "a", parse_string "@import \"c\"" "b",
              parse_string "@import \"a\"" "c"] none).errors =
    [errDiag "M3L-E003" "c" 1 "Circular import detected: a → b → c → a"] := by rfl

/-- C10: in every resolved AST built from parsed source files, every
attribute of every model, interface and view (including attributes of all
fields and nested sub-fields) has `isStandard` and `isRegistered` flags
that are never `Some(false)` - they are absent or true. -/
theorem c10_attr_flags_never_false (inputs : List (String × String))
    (project : Option ProjectInfo) :
    ((resolve (inputs.map (fun p => parse_string p.1 p.2)) project).models.all modelOkB &&
     ((resolve (inputs.map (fun p => parse_string p.1 p.2)) project).interfaces.all modelOkB &&
      (resolve (inputs.map (fun p => parse_string p.1 p.2)) project).views.all modelOkB)) = true :=
  resolve_ok _ project (fun f hf => by
    rw [List.mem_map] at hf
    obtain ⟨p, _, hpe⟩ := hf
    rw [← hpe]
    exact parse_string_ok p.1 p.2)

end M3l
